import Mathlib

/-!
Verification of the Open-AutoGLM phone-agent core against its specification.

The Lean definitions below are shallow embeddings of the Python sources:

* `src/phone_agent/agent.py` — context trimming (`PhoneAgent._trim_context`),
  the step controller (`PhoneAgent._execute_step`, `PhoneAgent.step`) and the
  one-shot parse retry (`PhoneAgent._retry_action_request`);
* `src/phone_agent/actions/handler.py` — the call-expression extractor
  (`_extract_call_expression`), the safe parser (`parse_action` with CPython's
  `ast.literal_eval` semantics) and the action dispatcher
  (`ActionHandler.execute` and its `_handle_*` methods).

Machine arithmetic is modelled exactly: Python ints are `Int`/`Nat`, and the
IEEE-754 double-precision arithmetic used by coordinate conversion is modelled
by explicit round-to-nearest-even on exact integer scalings (53-bit mantissa,
unbounded exponent range, which covers all values arising from the 0-1000
coordinate space and realistic screen sizes with huge margin).
-/

namespace AutoGLM

/-! ## Conversation messages and context trimming (`PhoneAgent._trim_context`)

Modelled from the spec: the `ConversationMessage` shape (role in
{system, user, assistant}, text content, optional image payload) comes from
spec section 3; the builder module (`phone_agent/model/client.py`,
`MessageBuilder`) is not part of the provided sources.  A message is a
nonempty Python dict, hence always truthy.  The trimming algorithm itself is
translated line by line from `PhoneAgent._trim_context` (agent.py 140-186).
-/

inductive Role where
  | system
  | user
  | assistant
deriving DecidableEq, Repr

structure Msg where
  role : Role
  text : String
  image : Option String
deriving DecidableEq, Repr

/-- First message of a given role, i.e. `next((m for m in ctx if m.get("role") == r), ...)`. -/
def findRole (r : Role) (ctx : List Msg) : Option Msg :=
  ctx.find? fun m => m.role == r

/-- One step of the anchor-collection loop
(`if anchor and anchor not in anchors: anchors.append(anchor)`).
Messages are nonempty dicts, hence always truthy, so the truthiness test
never skips an existing anchor. -/
def addAnchor (acc : List Msg) : Option Msg → List Msg
  | some a => if a ∈ acc then acc else acc ++ [a]
  | none => acc

/-- The anchor list built from the system message, the first user message and
the first assistant message, in that fixed order. -/
def anchorsOf (sys : Msg) (u a : Option Msg) : List Msg :=
  addAnchor (addAnchor (addAnchor [] (some sys)) u) a

/-- The `system_msg` local: first system-role message, defaulting to
`self._context[0]` (the default argument of `next` is evaluated eagerly). -/
def sysOf (ctx : List Msg) (c0 : Msg) : Msg :=
  (findRole .system ctx).getD c0

/-- The `anchors` local of `_trim_context`. -/
def anchorsCtx (ctx : List Msg) (c0 : Msg) : List Msg :=
  anchorsOf (sysOf ctx c0) (findRole .user ctx) (findRole .assistant ctx)

/-- The `remaining` local: all messages whose value is not an anchor value
(Python `not in` compares dicts by value). -/
def remainingCtx (ctx : List Msg) (c0 : Msg) : List Msg :=
  ctx.filter fun m => decide (m ∉ anchorsCtx ctx c0)

/-- The `available_slots` local:
`max(max_context_messages - (len(anchors) - 1), 0)` over Python ints. -/
def slotsCtx (maxMsgs : Int) (ctx : List Msg) (c0 : Msg) : Int :=
  max (maxMsgs - (((anchorsCtx ctx c0).length : Int) - 1)) 0

/-- The `recent_msgs` local: `remaining[-available_slots:]` when
`available_slots > 0`, else `[]`. -/
def recentsCtx (maxMsgs : Int) (ctx : List Msg) (c0 : Msg) : List Msg :=
  if 0 < slotsCtx maxMsgs ctx c0 then
    (remainingCtx ctx c0).drop ((remainingCtx ctx c0).length - (slotsCtx maxMsgs ctx c0).toNat)
  else []

/-- The rebuild loop of `_trim_context`: system message first (always truthy),
then the remaining anchors in order skipping any that sit among the recent
messages, then the retained recent messages.  The Python `anchor is system_msg`
identity test is modelled by value equality: the anchor list is
duplicate-free with the system message at its head, so exactly the head is
skipped in either reading. -/
def trimCore (maxMsgs : Int) (ctx : List Msg) (c0 : Msg) : List Msg :=
  sysOf ctx c0 ::
    (((anchorsCtx ctx c0).filter fun x => decide (x ≠ sysOf ctx c0)).filter
      fun x => decide (x ∉ recentsCtx maxMsgs ctx c0))
    ++ recentsCtx maxMsgs ctx c0

/-- `PhoneAgent._trim_context` as a function from the configured maximum and
the context to the new context.  `none` models the `IndexError` that
`self._context[0]` raises when the non-trivial branch runs on an empty
context (reachable only for `max_context_messages ≤ -2`). -/
def trim (maxMsgs : Int) (ctx : List Msg) : Option (List Msg) :=
  if (ctx.length : Int) ≤ maxMsgs + 1 then some ctx
  else
    match ctx with
    | [] => none
    | c0 :: _ => some (trimCore maxMsgs ctx c0)

/-- Sample messages used in concrete counterexamples and witnesses. -/
def mS : Msg := ⟨.system, "system prompt", none⟩

def mU : Msg := ⟨.user, "task", none⟩

def mA : Msg := ⟨.assistant, "first reply", none⟩

def mU2 : Msg := ⟨.user, "observation 2", none⟩

def mU3 : Msg := ⟨.user, "observation 3", none⟩

/-- The anchors named by the claims, in the claimed fixed order: the (first)
system message, the first user message, the first assistant message —
whichever of them exist. -/
def claimAnchors (ctx : List Msg) : List Msg :=
  (findRole .system ctx).toList ++ (findRole .user ctx).toList ++ (findRole .assistant ctx).toList

/-- The output `t` starts with the block `front`. -/
def beginsWith (t front : List Msg) : Prop :=
  t.take front.length = front

instance (t front : List Msg) : Decidable (beginsWith t front) := by
  unfold beginsWith; infer_instance

/-! ### Structural lemmas about the anchor list -/

theorem anchorsOf_shape (sys : Msg) (u a : Option Msg) :
    ∃ rest, anchorsOf sys u a = sys :: rest ∧ sys ∉ rest ∧
      (sys :: rest).Nodup ∧ rest.length ≤ 2 := by
  cases u with
  | none =>
    cases a with
    | none => exact ⟨[], by simp [anchorsOf, addAnchor]⟩
    | some av =>
      by_cases hav : av = sys
      · exact ⟨[], by simp [anchorsOf, addAnchor, hav]⟩
      · exact ⟨[av], by simp [anchorsOf, addAnchor, hav, Ne.symm hav]⟩
  | some uv =>
    by_cases huv : uv = sys
    · cases a with
      | none => exact ⟨[], by simp [anchorsOf, addAnchor, huv]⟩
      | some av =>
        by_cases hav : av = sys
        · exact ⟨[], by simp [anchorsOf, addAnchor, huv, hav]⟩
        · exact ⟨[av], by simp [anchorsOf, addAnchor, huv, hav, Ne.symm hav]⟩
    · cases a with
      | none => exact ⟨[uv], by simp [anchorsOf, addAnchor, huv, Ne.symm huv]⟩
      | some av =>
        by_cases hav : av = sys
        · exact ⟨[uv], by simp [anchorsOf, addAnchor, huv, Ne.symm huv, hav]⟩
        · by_cases hau : av = uv
          · exact ⟨[uv], by simp [anchorsOf, addAnchor, huv, Ne.symm huv, hav, hau]⟩
          · refine ⟨[uv, av], ?_⟩
            simp [anchorsOf, addAnchor, huv, Ne.symm huv, hav, hau, Ne.symm hav, Ne.symm hau]

theorem addAnchor_some (acc : List Msg) (a : Msg) :
    addAnchor acc (some a) = if a ∈ acc then acc else acc ++ [a] := rfl

theorem mem_addAnchor_self (acc : List Msg) (a : Msg) : a ∈ addAnchor acc (some a) := by
  rw [addAnchor_some]
  split_ifs with h
  · exact h
  · simp

theorem mem_addAnchor_of_mem (acc : List Msg) (o : Option Msg) {x : Msg} (hx : x ∈ acc) :
    x ∈ addAnchor acc o := by
  cases o with
  | none => exact hx
  | some a =>
    rw [addAnchor_some]
    split_ifs
    · exact hx
    · simp [hx]

theorem sys_mem_anchorsOf (sys : Msg) (u a : Option Msg) : sys ∈ anchorsOf sys u a := by
  obtain ⟨rest, h, -, -, -⟩ := anchorsOf_shape sys u a
  simp [h]

theorem user_mem_anchorsOf (sys : Msg) (uv : Msg) (a : Option Msg) :
    uv ∈ anchorsOf sys (some uv) a := by
  unfold anchorsOf
  exact mem_addAnchor_of_mem _ _ (mem_addAnchor_self _ _)

theorem assistant_mem_anchorsOf (sys : Msg) (u : Option Msg) (av : Msg) :
    av ∈ anchorsOf sys u (some av) := by
  unfold anchorsOf
  exact mem_addAnchor_self _ _

/-- The rebuild step returns exactly `anchors ++ recents`. -/
theorem trimCore_eq_append (maxMsgs : Int) (ctx : List Msg) (c0 : Msg) :
    trimCore maxMsgs ctx c0 = anchorsCtx ctx c0 ++ recentsCtx maxMsgs ctx c0 := by
  obtain ⟨rest, hA, hs, hnd, -⟩ := anchorsOf_shape (sysOf ctx c0) (findRole .user ctx) (findRole .assistant ctx)
  have hA' : anchorsCtx ctx c0 = sysOf ctx c0 :: rest := hA
  have h1 : (anchorsCtx ctx c0).filter (fun x => decide (x ≠ sysOf ctx c0)) = rest := by
    rw [hA']
    rw [List.filter_cons]
    simp only [decide_eq_true_eq]
    rw [if_neg (by simp)]
    apply List.filter_eq_self.mpr
    intro x hx
    simp only [decide_eq_true_eq]
    intro hxe
    exact hs (hxe ▸ hx)
  have h2 : rest.filter (fun x => decide (x ∉ recentsCtx maxMsgs ctx c0)) = rest := by
    apply List.filter_eq_self.mpr
    intro x hx
    simp only [decide_eq_true_eq]
    intro hxr
    have hxrem : x ∈ remainingCtx ctx c0 := by
      unfold recentsCtx at hxr
      split at hxr
      · exact List.mem_of_mem_drop hxr
      · simp at hxr
    have : x ∉ anchorsCtx ctx c0 := by
      have := List.mem_filter.mp hxrem
      simpa using this.2
    exact this (by rw [hA']; exact List.mem_cons_of_mem _ hx)
  unfold trimCore
  rw [h1, h2, hA']

theorem anchorsCtx_length_le (ctx : List Msg) (c0 : Msg) :
    1 ≤ (anchorsCtx ctx c0).length ∧ (anchorsCtx ctx c0).length ≤ 3 := by
  obtain ⟨rest, hA, -, -, hlen⟩ := anchorsOf_shape (sysOf ctx c0) (findRole .user ctx) (findRole .assistant ctx)
  have hA' : anchorsCtx ctx c0 = sysOf ctx c0 :: rest := hA
  rw [hA']
  simp only [List.length_cons]
  omega

theorem recentsCtx_length_le (maxMsgs : Int) (ctx : List Msg) (c0 : Msg) :
    (recentsCtx maxMsgs ctx c0).length ≤ (slotsCtx maxMsgs ctx c0).toNat := by
  unfold recentsCtx
  split
  · rw [List.length_drop]
    omega
  · simp

/-- C7 amended: for every configured maximum that is at least 2, trimming
bounds the context length by the maximum plus one. -/
theorem trim_length_le (maxMsgs : Int) (ctx t : List Msg)
    (hM : 2 ≤ maxMsgs) (h : trim maxMsgs ctx = some t) :
    (t.length : Int) ≤ maxMsgs + 1 := by
  unfold trim at h
  split at h
  · cases h
    omega
  · rename_i hlong
    match ctx, h with
    | c0 :: tl, h =>
      cases h
      rw [trimCore_eq_append]
      obtain ⟨hA1, hA3⟩ := anchorsCtx_length_le (c0 :: tl) c0
      have hrec := recentsCtx_length_le maxMsgs (c0 :: tl) c0
      have hslots : (slotsCtx maxMsgs (c0 :: tl) c0).toNat
      = (maxMsgs - (((anchorsCtx (c0 :: tl) c0).length : Int) - 1)).toNat := by
        unfold slotsCtx
        omega
      rw [List.length_append]
      push_cast
      omega

/-- C7 counterexample: with a configured maximum of 1, a context holding the
three anchors plus one more message trims to three messages, exceeding
`max + 1 = 2`.  The original claim quantified over every configured maximum. -/
theorem trim_length_counterexample :
    trim 1 [mS, mU, mA, mU2] = some [mS, mU, mA] ∧
      ¬ ((([mS, mU, mA] : List Msg).length : Int) ≤ 1 + 1) := by
  constructor
  · decide
  · decide

/-- Witness for `trim_length_le` at a concrete over-budget context with the
default-style configuration value 3. -/
theorem trim_length_le_witness :
    ((([mS, mU, mA, mU3] : List Msg).length : Int)) ≤ 3 + 1 :=
  trim_length_le 3 [mS, mU, mA, mU2, mU3] [mS, mU, mA, mU3] (by norm_num) (by decide)

/-! ### Anchor preservation (C6) -/

theorem role_of_findRole {r : Role} {ctx : List Msg} {m : Msg}
    (h : findRole r ctx = some m) : m.role = r := by
  have := List.find?_some h
  simpa using this

theorem mem_of_findRole {r : Role} {ctx : List Msg} {m : Msg}
    (h : findRole r ctx = some m) : m ∈ ctx :=
  List.mem_of_find?_eq_some h

theorem findRole_none_all {r : Role} {ctx : List Msg}
    (h : findRole r ctx = none) : ∀ m ∈ ctx, m.role ≠ r := by
  intro m hm
  have := List.find?_eq_none.mp h m hm
  simpa using this

theorem findRole_cons_pos (r : Role) (m : Msg) (l : List Msg) (h : m.role = r) :
    findRole r (m :: l) = some m := by
  unfold findRole
  rw [List.find?_cons_of_pos]
  simp [h]

theorem findRole_cons_neg (r : Role) (m : Msg) (l : List Msg) (h : m.role ≠ r) :
    findRole r (m :: l) = findRole r l := by
  unfold findRole
  rw [List.find?_cons_of_neg]
  simp [h]

theorem ne_of_role_ne {m m' : Msg} (h : m.role ≠ m'.role) : m ≠ m' := by
  intro he
  exact h (he ▸ rfl)

theorem anchorsOf_none_none (s : Msg) : anchorsOf s none none = [s] := by
  simp [anchorsOf, addAnchor]

theorem anchorsOf_some_none (s u : Msg) (h : u ≠ s) : anchorsOf s (some u) none = [s, u] := by
  simp [anchorsOf, addAnchor, h]

theorem anchorsOf_none_some (s a : Msg) (h : a ≠ s) : anchorsOf s none (some a) = [s, a] := by
  simp [anchorsOf, addAnchor, h]

theorem anchorsOf_some_some (s u a : Msg) (hu : u ≠ s) (ha : a ≠ s) (hau : a ≠ u) :
    anchorsOf s (some u) (some a) = [s, u, a] := by
  simp [anchorsOf, addAnchor, hu, ha, hau]

theorem anchorsOf_dup_u (s : Msg) (a : Option Msg) :
    anchorsOf s (some s) a = addAnchor [s] a := by
  simp [anchorsOf, addAnchor]

theorem anchorsOf_dup_a (s : Msg) (u : Option Msg) :
    anchorsOf s u (some s) = addAnchor [s] u := by
  unfold anchorsOf
  have h : addAnchor (addAnchor [] (some s)) u = addAnchor [s] u := by
    simp [addAnchor]
  rw [h, addAnchor_some, if_pos (mem_addAnchor_of_mem [s] u (by simp))]

/-- When a system-role message exists, the anchor list that the trim rebuild
places at the front is exactly the claim's ordered anchor list. -/
theorem anchorsCtx_eq_claimAnchors (ctx : List Msg) (c0 s : Msg)
    (hS : findRole .system ctx = some s) :
    anchorsCtx ctx c0 = claimAnchors ctx := by
  have hsys : sysOf ctx c0 = s := by unfold sysOf; rw [hS]; rfl
  have hsr : s.role = .system := role_of_findRole hS
  unfold anchorsCtx claimAnchors
  rw [hsys, hS]
  cases hU : findRole .user ctx with
  | none =>
    cases hA : findRole .assistant ctx with
    | none => simp [anchorsOf_none_none]
    | some a =>
      have har : a.role = .assistant := role_of_findRole hA
      have : a ≠ s := ne_of_role_ne (by rw [har, hsr]; simp)
      simp [anchorsOf_none_some s a this]
  | some u =>
    have hur : u.role = .user := role_of_findRole hU
    have hus : u ≠ s := ne_of_role_ne (by rw [hur, hsr]; simp)
    cases hA : findRole .assistant ctx with
    | none => simp [anchorsOf_some_none s u hus]
    | some a =>
      have har : a.role = .assistant := role_of_findRole hA
      have has : a ≠ s := ne_of_role_ne (by rw [har, hsr]; simp)
      have hau : a ≠ u := ne_of_role_ne (by rw [har, hur]; simp)
      simp [anchorsOf_some_some s u a hus has hau]

/-- C6 amended: for a configured maximum of at least 2, trimming preserves the
system message, the first user message and the first assistant message; and
whenever the input exceeds the budget (so that the rebuild actually runs) and
a system-role message exists, those anchors sit at the front of the output in
the fixed order system, first user, first assistant.  (A no-op trim returns
the input unchanged, so the front-order part cannot hold for arbitrary input
orders; see the counterexample.) -/
theorem trim_preserves_anchors (maxMsgs : Int) (ctx t : List Msg)
    (hM : 2 ≤ maxMsgs) (h : trim maxMsgs ctx = some t) :
    (∀ s, findRole .system ctx = some s → s ∈ t) ∧
    (∀ u, findRole .user ctx = some u → u ∈ t) ∧
    (∀ a, findRole .assistant ctx = some a → a ∈ t) ∧
    (maxMsgs + 1 < (ctx.length : Int) → (∃ s, findRole .system ctx = some s) →
      beginsWith t (claimAnchors ctx)) := by
  unfold trim at h
  split at h
  · rename_i hshort
    cases h
    refine ⟨fun s hs => mem_of_findRole hs, fun u hu => mem_of_findRole hu,
      fun a ha => mem_of_findRole ha, fun hlong _ => absurd hshort (by omega)⟩
  · rename_i hlong
    match ctx, h with
    | c0 :: tl, h =>
      cases h
      rw [trimCore_eq_append]
      refine ⟨?_, ?_, ?_, ?_⟩
      · intro s hs
        have hsys : sysOf (c0 :: tl) c0 = s := by unfold sysOf; rw [hs]; rfl
        apply List.mem_append_left
        unfold anchorsCtx
        rw [hsys]
        exact sys_mem_anchorsOf _ _ _
      · intro u hu
        apply List.mem_append_left
        unfold anchorsCtx
        rw [hu]
        exact user_mem_anchorsOf _ _ _
      · intro a ha
        apply List.mem_append_left
        unfold anchorsCtx
        rw [ha]
        exact assistant_mem_anchorsOf _ _ _
      · rintro - ⟨s, hs⟩
        rw [anchorsCtx_eq_claimAnchors (c0 :: tl) c0 s hs]
        unfold beginsWith
        exact List.take_left _ _

/-- C6 counterexample: a context that is already within budget is returned
unchanged by trim, so when its messages are not ordered system-first, the
anchors are present but not "in that fixed relative order at the front". -/
theorem trim_front_order_counterexample :
    trim 2 [mA, mU, mS] = some [mA, mU, mS] ∧
      ¬ beginsWith [mA, mU, mS] (claimAnchors [mA, mU, mS]) := by
  constructor
  · decide
  · decide

/-- Witness for `trim_preserves_anchors` at a concrete over-budget context. -/
theorem trim_preserves_anchors_witness :
    2 ≤ (3 : Int) ∧ trim 3 [mS, mU, mA, mU2, mU3] = some [mS, mU, mA, mU3] ∧
      mS ∈ [mS, mU, mA, mU3] ∧ mU ∈ [mS, mU, mA, mU3] ∧ mA ∈ [mS, mU, mA, mU3] ∧
      beginsWith [mS, mU, mA, mU3] (claimAnchors [mS, mU, mA, mU2, mU3]) := by
  have h := trim_preserves_anchors 3 [mS, mU, mA, mU2, mU3] [mS, mU, mA, mU3]
    (by norm_num) (by decide)
  exact ⟨by norm_num, by decide, h.1 mS (by decide), h.2.1 mU (by decide),
    h.2.2.1 mA (by decide), h.2.2.2 (by decide) ⟨mS, by decide⟩⟩

/-! ### Idempotence of trimming (C8) -/

theorem addAnchor_none (acc : List Msg) : addAnchor acc none = acc := rfl

theorem sysOf_cons_head (c0 : Msg) (tl : List Msg)
    (h : findRole .system (c0 :: tl) = none) : sysOf (c0 :: tl) c0 = c0 := by
  unfold sysOf
  rw [h]
  rfl

theorem sysOf_of_some {ctx : List Msg} {c0 s : Msg}
    (h : findRole .system ctx = some s) : sysOf ctx c0 = s := by
  unfold sysOf
  rw [h]
  rfl

/-- Re-running the anchor search inside the anchor list itself reproduces the
same three finds, hence the same anchor list. -/
theorem anchors_refind (c0 : Msg) (tl : List Msg) :
    findRole .user (anchorsCtx (c0 :: tl) c0) = findRole .user (c0 :: tl) ∧
    findRole .assistant (anchorsCtx (c0 :: tl) c0) = findRole .assistant (c0 :: tl) ∧
    sysOf (anchorsCtx (c0 :: tl) c0) (sysOf (c0 :: tl) c0) = sysOf (c0 :: tl) c0 := by
  cases hS : findRole .system (c0 :: tl) with
  | some s =>
    have hsys : sysOf (c0 :: tl) c0 = s := sysOf_of_some hS
    have hsr : s.role = .system := role_of_findRole hS
    have hA : anchorsCtx (c0 :: tl) c0
        = anchorsOf s (findRole .user (c0 :: tl)) (findRole .assistant (c0 :: tl)) := by
      unfold anchorsCtx
      rw [hsys]
    cases hU : findRole .user (c0 :: tl) with
    | none =>
      cases hA2 : findRole .assistant (c0 :: tl) with
      | none =>
        rw [hA, hU, hA2, anchorsOf_none_none, hsys]
        refine ⟨?_, ?_, ?_⟩
        · rw [findRole_cons_neg _ _ _ (by rw [hsr]; simp)]; rfl
        · rw [findRole_cons_neg _ _ _ (by rw [hsr]; simp)]; rfl
        · exact sysOf_of_some (findRole_cons_pos _ _ _ hsr)
      | some a =>
        have har : a.role = .assistant := role_of_findRole hA2
        have has : a ≠ s := ne_of_role_ne (by rw [har, hsr]; simp)
        rw [hA, hU, hA2, anchorsOf_none_some s a has, hsys]
        refine ⟨?_, ?_, ?_⟩
        · rw [findRole_cons_neg _ _ _ (by rw [hsr]; simp),
            findRole_cons_neg _ _ _ (by rw [har]; simp)]; rfl
        · rw [findRole_cons_neg _ _ _ (by rw [hsr]; simp)]
          exact findRole_cons_pos _ _ _ har
        · exact sysOf_of_some (findRole_cons_pos _ _ _ hsr)
    | some u =>
      have hur : u.role = .user := role_of_findRole hU
      have hus : u ≠ s := ne_of_role_ne (by rw [hur, hsr]; simp)
      cases hA2 : findRole .assistant (c0 :: tl) with
      | none =>
        rw [hA, hU, hA2, anchorsOf_some_none s u hus, hsys]
        refine ⟨?_, ?_, ?_⟩
        · rw [findRole_cons_neg _ _ _ (by rw [hsr]; simp)]
          exact findRole_cons_pos _ _ _ hur
        · rw [findRole_cons_neg _ _ _ (by rw [hsr]; simp),
            findRole_cons_neg _ _ _ (by rw [hur]; simp)]; rfl
        · exact sysOf_of_some (findRole_cons_pos _ _ _ hsr)
      | some a =>
        have har : a.role = .assistant := role_of_findRole hA2
        have has : a ≠ s := ne_of_role_ne (by rw [har, hsr]; simp)
        have hau : a ≠ u := ne_of_role_ne (by rw [har, hur]; simp)
        rw [hA, hU, hA2, anchorsOf_some_some s u a hus has hau, hsys]
        refine ⟨?_, ?_, ?_⟩
        · rw [findRole_cons_neg _ _ _ (by rw [hsr]; simp)]
          exact findRole_cons_pos _ _ _ hur
        · rw [findRole_cons_neg _ _ _ (by rw [hsr]; simp),
            findRole_cons_neg _ _ _ (by rw [hur]; simp)]
          exact findRole_cons_pos _ _ _ har
        · exact sysOf_of_some (findRole_cons_pos _ _ _ hsr)
  | none =>
    have hsys : sysOf (c0 :: tl) c0 = c0 := sysOf_cons_head c0 tl hS
    have hc0 : c0.role ≠ Role.system := findRole_none_all hS c0 (by simp)
    have hA : anchorsCtx (c0 :: tl) c0
        = anchorsOf c0 (findRole .user (c0 :: tl)) (findRole .assistant (c0 :: tl)) := by
      unfold anchorsCtx
      rw [hsys]
    match hc : c0.role with
    | .system => exact absurd hc hc0
    | .user =>
      have hU : findRole .user (c0 :: tl) = some c0 := findRole_cons_pos _ _ _ hc
      cases hA2 : findRole .assistant (c0 :: tl) with
      | none =>
        rw [hA, hU, hA2, anchorsOf_dup_u, addAnchor_none, hsys]
        refine ⟨?_, ?_, ?_⟩
        · exact findRole_cons_pos _ _ _ hc
        · rw [findRole_cons_neg _ _ _ (by rw [hc]; simp)]; rfl
        · unfold sysOf
          rw [findRole_cons_neg _ _ _ (by rw [hc]; simp)]
          rfl
      | some a =>
        have har : a.role = .assistant := role_of_findRole hA2
        have hac : a ≠ c0 := ne_of_role_ne (by rw [har, hc]; simp)
        rw [hA, hU, hA2, anchorsOf_dup_u, addAnchor_some, if_neg (by simp [hac]),
          List.singleton_append, hsys]
        refine ⟨?_, ?_, ?_⟩
        · exact findRole_cons_pos _ _ _ hc
        · rw [findRole_cons_neg _ _ _ (by rw [hc]; simp)]
          exact findRole_cons_pos _ _ _ har
        · unfold sysOf
          rw [findRole_cons_neg _ _ _ (by rw [hc]; simp),
            findRole_cons_neg _ _ _ (by rw [har]; simp)]
          rfl
    | .assistant =>
      have hA2 : findRole .assistant (c0 :: tl) = some c0 := findRole_cons_pos _ _ _ hc
      cases hU : findRole .user (c0 :: tl) with
      | none =>
        rw [hA, hU, hA2, anchorsOf_dup_a, addAnchor_none, hsys]
        refine ⟨?_, ?_, ?_⟩
        · rw [findRole_cons_neg _ _ _ (by rw [hc]; simp)]; rfl
        · exact findRole_cons_pos _ _ _ hc
        · unfold sysOf
          rw [findRole_cons_neg _ _ _ (by rw [hc]; simp)]
          rfl
      | some u =>
        have hur : u.role = .user := role_of_findRole hU
        have huc : u ≠ c0 := ne_of_role_ne (by rw [hur, hc]; simp)
        rw [hA, hU, hA2, anchorsOf_dup_a, addAnchor_some, if_neg (by simp [huc]),
          List.singleton_append, hsys]
        refine ⟨?_, ?_, ?_⟩
        · rw [findRole_cons_neg _ _ _ (by rw [hc]; simp)]
          exact findRole_cons_pos _ _ _ hur
        · exact findRole_cons_pos _ _ _ hc
        · unfold sysOf
          rw [findRole_cons_neg _ _ _ (by rw [hc]; simp),
            findRole_cons_neg _ _ _ (by rw [hur]; simp)]
          rfl

/-- The anchor list is a fixed point of the whole anchor computation. -/
theorem anchorsCtx_fixed (c0 : Msg) (tl : List Msg) :
    anchorsCtx (anchorsCtx (c0 :: tl) c0) (sysOf (c0 :: tl) c0) = anchorsCtx (c0 :: tl) c0 := by
  obtain ⟨hu, ha, hs⟩ := anchors_refind c0 tl
  show anchorsOf (sysOf (anchorsCtx (c0 :: tl) c0) (sysOf (c0 :: tl) c0))
      (findRole .user (anchorsCtx (c0 :: tl) c0))
      (findRole .assistant (anchorsCtx (c0 :: tl) c0)) = anchorsCtx (c0 :: tl) c0
  rw [hu, ha, hs]
  rfl

theorem remaining_of_anchors_nil (c0 : Msg) (tl : List Msg) :
    remainingCtx (anchorsCtx (c0 :: tl) c0) (sysOf (c0 :: tl) c0) = [] := by
  unfold remainingCtx
  rw [anchorsCtx_fixed]
  rw [List.filter_eq_nil_iff]
  intro a ha
  simp [ha]

theorem recents_of_anchors_nil (maxMsgs : Int) (c0 : Msg) (tl : List Msg) :
    recentsCtx maxMsgs (anchorsCtx (c0 :: tl) c0) (sysOf (c0 :: tl) c0) = [] := by
  unfold recentsCtx
  rw [remaining_of_anchors_nil]
  split
  · simp
  · rfl

/-- Running the rebuild on the bare anchor list reproduces it unchanged. -/
theorem trimCore_anchors_fixed (maxMsgs : Int) (c0 : Msg) (tl : List Msg) :
    trimCore maxMsgs (anchorsCtx (c0 :: tl) c0) (sysOf (c0 :: tl) c0)
      = anchorsCtx (c0 :: tl) c0 := by
  obtain ⟨rest, hA, hs, hnd, -⟩ :=
    anchorsOf_shape (sysOf (c0 :: tl) c0) (findRole .user (c0 :: tl)) (findRole .assistant (c0 :: tl))
  have hA' : anchorsCtx (c0 :: tl) c0 = sysOf (c0 :: tl) c0 :: rest := hA
  obtain ⟨-, -, hsys⟩ := anchors_refind c0 tl
  unfold trimCore
  rw [recents_of_anchors_nil, anchorsCtx_fixed, hsys, List.append_nil, hA']
  rw [List.filter_cons]
  simp only [decide_eq_true_eq]
  rw [if_neg (by simp)]
  have h1 : rest.filter (fun x => decide (x ≠ sysOf (c0 :: tl) c0)) = rest := by
    apply List.filter_eq_self.mpr
    intro x hx
    simp only [decide_eq_true_eq]
    intro hxe
    exact hs (hxe ▸ hx)
  rw [h1]
  apply congrArg
  apply List.filter_eq_self.mpr
  intro x hx
  simp

/-- C8: trimming is idempotent — whenever `trim` succeeds, applying it again
to the result returns the result unchanged.  (Determinism is intrinsic to the
embedding: `trim` is a pure function of the input sequence and the configured
maximum.) -/
theorem trim_idempotent (maxMsgs : Int) (ctx t : List Msg)
    (h : trim maxMsgs ctx = some t) : trim maxMsgs t = some t := by
  unfold trim at h
  split at h
  · cases h
    unfold trim
    rename_i hshort
    rw [if_pos hshort]
  · rename_i hlong
    match ctx, hlong, h with
    | c0 :: tl, hlong, h =>
      cases h
      unfold trim
      split
      · rfl
      · rename_i hlong2
        have htc := trimCore_eq_append maxMsgs (c0 :: tl) c0
        -- the second pass only runs when no recent messages were kept,
        -- i.e. the first result is exactly the anchor list
        have hrec : recentsCtx maxMsgs (c0 :: tl) c0 = [] := by
          by_contra hne
          have hpos : 0 < slotsCtx maxMsgs (c0 :: tl) c0 := by
            unfold recentsCtx at hne
            by_contra hnp
            rw [if_neg hnp] at hne
            exact hne rfl
          have hslots : slotsCtx maxMsgs (c0 :: tl) c0
              = maxMsgs - (((anchorsCtx (c0 :: tl) c0).length : Int) - 1) := by
            unfold slotsCtx at hpos ⊢
            omega
          have hlen := recentsCtx_length_le maxMsgs (c0 :: tl) c0
          have hA1 := anchorsCtx_length_le (c0 :: tl) c0
          apply hlong2
          rw [htc, List.length_append]
          push_cast
          omega
        rw [htc, hrec, List.append_nil] at hlong2 ⊢
        obtain ⟨rest, hA, -, -, -⟩ :=
          anchorsOf_shape (sysOf (c0 :: tl) c0) (findRole .user (c0 :: tl)) (findRole .assistant (c0 :: tl))
        have hA' : anchorsCtx (c0 :: tl) c0 = sysOf (c0 :: tl) c0 :: rest := hA
        have hfix := trimCore_anchors_fixed maxMsgs c0 tl
        rw [hA']
        show some (trimCore maxMsgs (sysOf (c0 :: tl) c0 :: rest) (sysOf (c0 :: tl) c0))
          = some (sysOf (c0 :: tl) c0 :: rest)
        rw [← hA', hfix]

/-- Witness for `trim_idempotent` at a concrete over-budget context. -/
theorem trim_idempotent_witness :
    trim 1 [mS, mU, mA, mU2] = some [mS, mU, mA] ∧
      trim 1 [mS, mU, mA] = some [mS, mU, mA] :=
  ⟨by decide, trim_idempotent 1 [mS, mU, mA, mU2] [mS, mU, mA] (by decide)⟩

/-! ## Call-expression extraction (`_extract_call_expression`, handler.py 270-324)

The extractor works on the decoded character sequence of the model text.  The
three `re.sub` passes are modelled by direct scanners with the exact same
match semantics:

* `</?[^>]+>` is equivalent to `<[^>]+>` (the optional slash is subsumed by
  `[^>]+`): each leftmost `<`, followed by at least one non-`>` character and
  then the first `>`, is replaced by a single space;
* ```` ```.*?``` ```` with DOTALL replaces each leftmost fence pair and its
  content (up to the earliest closing fence) by a single space;
* `^\s*\{think\}.*?\s*` is anchored at the start and, because the lazy `.*?`
  succeeds with zero width, removes exactly leading whitespace, the literal
  think marker, and the following whitespace run, replacing them by a space.

Python's `\s`, `\b` and `str.strip()` are Unicode-aware; the character
classes below are their ASCII restrictions, on which they agree with CPython
exactly (checked against `re` and `str.isspace` over all code points below
128).  Outside ASCII the word and whitespace classes diverge — e.g. a CJK
character is a word character for `\b`, so `\bdo` does not match after it —
and the general extraction theorem is therefore stated for ASCII text only;
concrete evaluations elsewhere in this file use ASCII inputs. -/

def btick : Char := Char.ofNat 96

def squote : Char := Char.ofNat 39

def dquote : Char := Char.ofNat 34

/-- The ASCII restriction of Python's whitespace class (`re` `\s`,
`str.isspace`, `str.strip`): tab through carriage return (0x09-0x0d), the
four separator controls 0x1c-0x1f, and space.  Exact for every code point
below 128; non-ASCII whitespace (U+0085, U+00A0, U+2000-…) is outside the
ASCII scope of the extraction theorems. -/
def pySpace (c : Char) : Bool :=
  c == ' ' || c == '\t' || c == '\n' || c == '\r' || c == '\x0b' || c == '\x0c'
    || c == '\x1c' || c == '\x1d' || c == '\x1e' || c == '\x1f'

/-- One pass of `re.sub(r"</?[^>]+>", " ", cleaned)`. -/
def stripTagsAux : Nat → List Char → List Char
  | 0, cs => cs
  | _ + 1, [] => []
  | fuel + 1, c :: cs =>
    if c = '<' then
      match cs.findIdx? (fun d => d == '>') with
      | some j =>
        if 1 ≤ j then ' ' :: stripTagsAux fuel (cs.drop (j + 1))
        else c :: stripTagsAux fuel cs
      | none => c :: stripTagsAux fuel cs
    else c :: stripTagsAux fuel cs

def stripTags (cs : List Char) : List Char := stripTagsAux cs.length cs

def startsFence : List Char → Bool
  | a :: b :: c :: _ => a == btick && b == btick && c == btick
  | _ => false

/-- Index of the first position where three consecutive backticks start. -/
def findFence : List Char → Option Nat
  | [] => none
  | c :: cs => if startsFence (c :: cs) then some 0 else (findFence cs).map (· + 1)

/-- One pass of `re.sub(r"```.*?```", " ", cleaned, flags=re.S)`. -/
def stripFencesAux : Nat → List Char → List Char
  | 0, cs => cs
  | _ + 1, [] => []
  | fuel + 1, c :: cs =>
    if startsFence (c :: cs) then
      match findFence (cs.drop 2) with
      | some k => ' ' :: stripFencesAux fuel ((cs.drop 2).drop (k + 3))
      | none => c :: stripFencesAux fuel cs
    else c :: stripFencesAux fuel cs

def stripFences (cs : List Char) : List Char := stripFencesAux cs.length cs

def thinkTok : List Char := "\x7bthink\x7d".data

/-- The pass `re.sub(r"^\s*\{think\}.*?\s*", " ", cleaned, flags=re.S)`. -/
def stripThink (cs : List Char) : List Char :=
  let rest := cs.dropWhile pySpace
  if thinkTok.isPrefixOf rest then
    ' ' :: (rest.drop thinkTok.length).dropWhile pySpace
  else cs

/-- The chained `.replace` normalization of fullwidth punctuation. -/
def normPunct (c : Char) : Char :=
  if c = '“' ∨ c = '”' then dquote
  else if c = '‘' ∨ c = '’' then squote
  else if c = '：' then ':'
  else if c = '，' then ','
  else c

/-- Python `str.strip()`. -/
def pyStrip (cs : List Char) : List Char :=
  ((cs.dropWhile pySpace).reverse.dropWhile pySpace).reverse

/-- The full sanitization pipeline of `_extract_call_expression`
(lines 275-292): tags, fences, think marker, punctuation, strip. -/
def cleanText (cs : List Char) : List Char :=
  pyStrip ((stripThink (stripFences (stripTags cs))).map normPunct)

/-- The ASCII restriction of the regex word class `\w` used by `\b`:
`[A-Za-z0-9_]`, exact for every code point below 128.  Python's `\w` also
contains non-ASCII word characters (CJK, accented letters, other digits),
which is why the extraction theorem below is restricted to ASCII text. -/
def isWordChar (c : Char) : Bool := c.isAlphanum || c == '_'

/-- Does `rest` begin with `name`, optional whitespace, and `(` —
the body of the regex `\bNAME\s*\(` at this position? -/
def matchesCall (name rest : List Char) : Bool :=
  name.isPrefixOf rest && ((rest.drop name.length).dropWhile pySpace).head? == some '('

/-- The `\b` word boundary before the name: start of text or a non-word
char.  Built on the ASCII word class, so it is the exact `\b` test only when
the previous character is ASCII — hence the ASCII restriction on the
extraction theorem. -/
def boundaryOk : Option Char → Bool
  | none => true
  | some p => !isWordChar p

/-- The regex `\bNAME\s*\(` matches at this position: word boundary against
the previous character, then the call-name-and-parenthesis pattern. -/
def callHere (name : List Char) (prev : Option Char) (rest : List Char) : Bool :=
  boundaryOk prev && matchesCall name rest

/-- `re.search(fr"\b{func_name}\s*\(", cleaned).start()`: index of the first
match, scanning left to right with the previous character threaded for the
word-boundary test. -/
def findCallAux (name : List Char) : List Char → Option Char → Option Nat
  | [], _ => none
  | c :: cs, prev =>
    if callHere name prev (c :: cs) then some 0
    else (findCallAux name cs (some c)).map (· + 1)

/-- No position strictly inside `pre` (viewed as a prefix of `pre ++ suf`)
matches the call pattern. -/
def noCallPre (name : List Char) : Option Char → List Char → List Char → Bool
  | _, [], _ => true
  | prev, c :: pre, suf =>
    !callHere name prev (c :: (pre ++ suf)) && noCallPre name (some c) pre suf

/-- The character immediately before the end of `pre` (threading `prev`). -/
def lastPrev (prev : Option Char) : List Char → Option Char
  | [] => prev
  | c :: pre => lastPrev (some c) pre

/-- State of the bracket scan (depth, string mode, quote char, escape flag). -/
structure ScanSt where
  depth : Int
  inStr : Bool
  strCh : Char
  esc : Bool
deriving Repr, DecidableEq

def scanInit : ScanSt := ⟨0, false, ' ', false⟩

/-- One character of the scanning loop (handler.py 305-323). -/
def scanStep (st : ScanSt) (c : Char) : ScanSt :=
  if st.inStr then
    if st.esc then { st with esc := false }
    else if c = '\\' then { st with esc := true }
    else if c = st.strCh then { st with inStr := false }
    else st
  else
    if c = dquote ∨ c = squote then { st with inStr := true, strCh := c }
    else if c = '(' then { st with depth := st.depth + 1 }
    else if c = ')' then { st with depth := st.depth - 1 }
    else st

/-- Offset of the character at which the scan returns: the first `)` outside a
string that brings the nesting depth back to zero. -/
def scanEnd (st : ScanSt) : List Char → Option Nat
  | [] => none
  | c :: cs =>
    if !st.inStr && c == ')' && st.depth == 1 then some 0
    else (scanEnd (scanStep st c) cs).map (· + 1)

/-- `_extract_call_expression` on character lists. -/
def extractCall (text name : List Char) : Option (List Char) :=
  let cleaned := cleanText text
  match findCallAux name cleaned none with
  | none => none
  | some i =>
    match scanEnd scanInit (cleaned.drop i) with
    | none => none
    | some j => some ((cleaned.drop i).take (j + 1))

/-- `_extract_call_expression(text, func_name)` on strings. -/
def extract_call_expression (text funcName : String) : Option String :=
  (extractCall text.data funcName.data).map fun l => String.mk l

/-! ## Safe expression parsing (`parse_action`, handler.py 327-368)

The argument grammar is the CPython expression AST restricted to the
constructor shapes that `parse_action` can meet; the evaluator is CPython's
`ast.literal_eval` (Lib/ast.py, Python ≥ 3.10, which this repository requires
for its `X | None` annotations).  Faithfulness notes:

* `_convert_num` accepts a `Constant` whose value has exact type `int`,
  `float` or `complex` — booleans are rejected there because
  `type(True) is bool`;
* `literal_eval` accepts the exact zero-argument call `set()` (empty set);
* a `BinOp` with `Add`/`Sub` is accepted only when the left operand is a
  (possibly signed) int/float constant and the right operand is a complex
  constant — the complex-literal form `a+bj`; every other arithmetic shape
  falls through to `_convert_num` on the `BinOp` node itself and is rejected.
  CPython rounds the components of the resulting complex to double precision;
  the model keeps them exact, which no claim observes (only acceptance and
  rejection matter, and str/int fields are exact either way);
* dict and set displays, bytes and Ellipsis constants are not representable
  in this AST; no claim mentions them. -/

inductive PyConst where
  | str (s : String)
  | int (n : Int)
  | float (q : Rat)
  | bool (b : Bool)
  | none
  | complex (re im : Rat)
deriving Repr

inductive PyBinOp where
  | add
  | sub
  | other
deriving Repr, DecidableEq

inductive PyUnaryOp where
  | uadd
  | usub
  | other
deriving Repr, DecidableEq

inductive PyExpr where
  | const (c : PyConst)
  | name (id : String)
  | attribute (obj : PyExpr) (attr : String)
  | call (func : PyExpr) (args : List PyExpr) (keywords : List (Option String × PyExpr))
  | binOp (op : PyBinOp) (l r : PyExpr)
  | unaryOp (op : PyUnaryOp) (e : PyExpr)
  | list (elts : List PyExpr)
  | tuple (elts : List PyExpr)
deriving Repr

inductive PyVal where
  | str (s : String)
  | int (n : Int)
  | float (q : Rat)
  | bool (b : Bool)
  | none
  | complex (re im : Rat)
  | list (elts : List PyVal)
  | tuple (elts : List PyVal)
  | set0
deriving Repr

def constVal : PyConst → PyVal
  | .str s => .str s
  | .int n => .int n
  | .float q => .float q
  | .bool b => .bool b
  | .none => .none
  | .complex re im => .complex re im

/-- `_convert_num`: a `Constant` of exact type int, float or complex. -/
def convertNum : PyExpr → Except Unit PyVal
  | .const (.int n) => .ok (.int n)
  | .const (.float q) => .ok (.float q)
  | .const (.complex re im) => .ok (.complex re im)
  | _ => .error ()

/-- Exact negation (Python unary minus on numbers is exact). -/
def negVal : PyVal → PyVal
  | .int n => .int (-n)
  | .float q => .float (-q)
  | .complex re im => .complex (-re) (-im)
  | v => v

/-- `_convert_signed_num`: an optional unary plus/minus over `_convert_num`. -/
def convertSignedNum : PyExpr → Except Unit PyVal
  | .unaryOp .uadd e => convertNum e
  | .unaryOp .usub e => (convertNum e).map negVal
  | e => convertNum e

/-- Real (int/float) plus or minus a complex constant, forming a complex. -/
def realComplexOp (op : PyBinOp) (x re im : Rat) : PyVal :=
  if op = .add then .complex (x + re) im else .complex (x - re) (-im)

mutual

/-- CPython's `ast.literal_eval` `_convert` on this AST. -/
def literalEval : PyExpr → Except Unit PyVal
  | .const c => .ok (constVal c)
  | .tuple es => (literalEvalList es).map .tuple
  | .list es => (literalEvalList es).map .list
  | .call (.name f) args kws =>
    if f == "set" && args.isEmpty && kws.isEmpty then .ok .set0
    else convertSignedNum (.call (.name f) args kws)
  | .binOp op l r =>
    if op = .add ∨ op = .sub then
      match convertSignedNum l, convertNum r with
      | .ok (.int n), .ok (.complex re im) => .ok (realComplexOp op (n : Rat) re im)
      | .ok (.float q), .ok (.complex re im) => .ok (realComplexOp op q re im)
      | .error e, _ => .error e
      | .ok _, .error e => .error e
      | .ok _, .ok _ => convertSignedNum (.binOp op l r)
    else convertSignedNum (.binOp op l r)
  | e => convertSignedNum e

def literalEvalList : List PyExpr → Except Unit (List PyVal)
  | [] => .ok []
  | e :: es => do
    let v ← literalEval e
    let vs ← literalEvalList es
    pure (v :: vs)

end

/- The argument-literal grammar named by the spec: strings, ints/floats,
booleans, none, and lists/tuples of such values. -/
mutual

def acceptedLiteral : PyExpr → Bool
  | .const (.str _) => true
  | .const (.int _) => true
  | .const (.float _) => true
  | .const (.bool _) => true
  | .const .none => true
  | .list es => acceptedLiteralList es
  | .tuple es => acceptedLiteralList es
  | _ => false

def acceptedLiteralList : List PyExpr → Bool
  | [] => true
  | e :: es => acceptedLiteral e && acceptedLiteralList es

end

/-- The action dictionary built by `parse_action`: the `_metadata` tag plus
the keyword fields in order (later duplicate keywords overwrite earlier ones,
as in a Python dict). -/
structure ActionRecord where
  metadata : String
  fields : List (Option String × PyVal)
deriving Repr

def insertField : List (Option String × PyVal) → Option String → PyVal → List (Option String × PyVal)
  | [], k, v => [(k, v)]
  | (k', v') :: rest, k, v =>
    if k' = k then (k', v) :: rest else (k', v') :: insertField rest k v

def ActionRecord.insert (r : ActionRecord) (k : Option String) (v : PyVal) : ActionRecord :=
  ⟨r.metadata, insertField r.fields k v⟩

/-- `action.get(k)` for a string key. -/
def ActionRecord.get (r : ActionRecord) (k : String) : Option PyVal :=
  (r.fields.find? fun kv => kv.1 == some k).map fun kv => kv.2

/-- `k in action` for a string key. -/
def ActionRecord.hasKey (r : ActionRecord) (k : String) : Bool :=
  r.fields.any fun kv => kv.1 == some k

/-- The keyword loop of `parse_action` (handler.py 360-363):
`action[key] = ast.literal_eval(keyword.value)` for each keyword. -/
def parseKeywords (init : ActionRecord) : List (Option String × PyExpr) → Except Unit ActionRecord
  | [] => .ok init
  | (k, ve) :: rest =>
    match literalEval ve with
    | .ok v => parseKeywords (init.insert k v) rest
    | .error e => .error e

/-- The AST stage of `parse_action`: requires a `Call` node and evaluates its
keywords into an action record tagged with the matched call name. -/
def parseActionCall (metadata : String) (tree : PyExpr) : Except Unit ActionRecord :=
  match tree with
  | .call _ _ kws => parseKeywords ⟨metadata, []⟩ kws
  | _ => .error ()

/-- The `try: tree = ast.parse(expr, mode="eval") ...` body of `parse_action`
applied to one extracted call substring.  Python's `ast.parse` (the CPython
expression grammar) is interpreter infrastructure, not repository code; it
enters as the parameter `astParse`, mapping the substring to its expression
tree, or `none` for a `SyntaxError`. -/
def parseExtracted (astParse : String → Option PyExpr) (expr metadata : String) :
    Except String ActionRecord :=
  match astParse expr with
  | none => .error ("Failed to parse " ++ metadata ++ " action after sanitization")
  | some tree =>
    match parseActionCall metadata tree with
    | .ok r => .ok r
    | .error _ => .error ("Failed to parse " ++ metadata ++ " action after sanitization")

/-- `parse_action(response)` (handler.py 327-368): extract a `do(...)` call,
falling back to `finish(...)`, then parse it safely. -/
def parse_action (astParse : String → Option PyExpr) (response : String) :
    Except String ActionRecord :=
  match extract_call_expression response "do" with
  | some expr => parseExtracted astParse expr "do"
  | none =>
    match extract_call_expression response "finish" with
    | some expr => parseExtracted astParse expr "finish"
    | none => .error "Failed to locate action call in response"

/-- The `finish(message=...)` helper from handler.py. -/
def finishRecord (message : PyVal) : ActionRecord :=
  ⟨"finish", [(some "message", message)]⟩

/-! ### Tag invariant of parsed records (C9) -/

theorem convertNum_complex {r : PyExpr} {re im : Rat}
    (h : convertNum r = .ok (.complex re im)) : r = .const (.complex re im) := by
  match r, h with
  | .const (.complex re' im'), h =>
    cases h
    rfl

theorem literalEvalList_ok (es : List PyExpr)
    (h : ∀ e ∈ es, ∃ v, literalEval e = .ok v) :
    ∃ vs, literalEvalList es = .ok vs := by
  induction es with
  | nil => exact ⟨[], rfl⟩
  | cons e rest ih =>
    obtain ⟨v, hv⟩ := h e (by simp)
    obtain ⟨vs, hvs⟩ := ih fun e' he' => h e' (by simp [he'])
    refine ⟨v :: vs, ?_⟩
    unfold literalEvalList
    rw [hv, hvs]
    rfl

theorem acceptedLiteralList_mem {es : List PyExpr} (h : acceptedLiteralList es = true) :
    ∀ e ∈ es, acceptedLiteral e = true := by
  induction es with
  | nil => intro e he; cases he
  | cons e' rest ih =>
    intro e he
    unfold acceptedLiteralList at h
    rw [Bool.and_eq_true] at h
    rcases List.mem_cons.mp he with he | he
    · exact he ▸ h.1
    · exact ih h.2 e he

theorem accepted_sound_bounded :
    ∀ (n : ℕ) (e : PyExpr), sizeOf e ≤ n → acceptedLiteral e = true →
      ∃ v, literalEval e = .ok v := by
  intro n
  induction n with
  | zero =>
    intro e hse
    exact absurd hse (by cases e <;> simp)
  | succ n ih =>
    intro e hse ha
    match e, ha with
    | .const c, _ => exact ⟨constVal c, rfl⟩
    | .list es, ha =>
      have hmem : ∀ e' ∈ es, ∃ v, literalEval e' = .ok v := by
        intro e' he'
        have hsz : sizeOf e' < sizeOf (PyExpr.list es) := by
          have := List.sizeOf_lt_of_mem he'
          simp only [PyExpr.list.sizeOf_spec]
          omega
        exact ih e' (by omega) (acceptedLiteralList_mem ha e' he')
      obtain ⟨vs, hvs⟩ := literalEvalList_ok es hmem
      refine ⟨.list vs, ?_⟩
      unfold literalEval
      rw [hvs]
      rfl
    | .tuple es, ha =>
      have hmem : ∀ e' ∈ es, ∃ v, literalEval e' = .ok v := by
        intro e' he'
        have hsz : sizeOf e' < sizeOf (PyExpr.tuple es) := by
          have := List.sizeOf_lt_of_mem he'
          simp only [PyExpr.tuple.sizeOf_spec]
          omega
        exact ih e' (by omega) (acceptedLiteralList_mem ha e' he')
      obtain ⟨vs, hvs⟩ := literalEvalList_ok es hmem
      refine ⟨.tuple vs, ?_⟩
      unfold literalEval
      rw [hvs]
      rfl

theorem accepted_sound (e : PyExpr) (ha : acceptedLiteral e = true) :
    ∃ v, literalEval e = .ok v :=
  accepted_sound_bounded (sizeOf e) e le_rfl ha

theorem parseKeywords_each :
    ∀ (kws : List (Option String × PyExpr)) (init r : ActionRecord),
      parseKeywords init kws = .ok r →
      ∀ kv ∈ kws, ∃ v, literalEval kv.2 = .ok v := by
  intro kws
  induction kws with
  | nil =>
    intro init r h kv hkv
    cases hkv
  | cons hd rest ih =>
    intro init r h kv hkv
    obtain ⟨k, ve⟩ := hd
    unfold parseKeywords at h
    cases hv : literalEval ve with
    | ok v =>
      simp only [hv] at h
      rcases List.mem_cons.mp hkv with hkv | hkv
      · exact ⟨v, hkv ▸ hv⟩
      · exact ih _ _ h kv hkv
    | error e =>
      simp only [hv] at h
      simp at h

theorem literalEval_name (id : String) : literalEval (.name id) = .error () := rfl

theorem literalEval_attribute (o : PyExpr) (attr : String) :
    literalEval (.attribute o attr) = .error () := rfl

theorem literalEval_call_reject (f : PyExpr) (args : List PyExpr)
    (kws : List (Option String × PyExpr))
    (h : f ≠ PyExpr.name "set" ∨ args ≠ [] ∨ kws ≠ []) :
    literalEval (.call f args kws) = .error () := by
  match f with
  | .name fid =>
    show (if fid == "set" && args.isEmpty && kws.isEmpty then Except.ok PyVal.set0
      else convertSignedNum (.call (.name fid) args kws)) = .error ()
    have hcond : (fid == "set" && args.isEmpty && kws.isEmpty) = false := by
      rcases h with h | h | h
      · have : fid ≠ "set" := fun he => h (by rw [he])
        simp [this]
      · cases args with
        | nil => exact absurd rfl h
        | cons a l => simp [List.isEmpty]
      · cases kws with
        | nil => exact absurd rfl h
        | cons a l => simp [List.isEmpty]
    rw [hcond]
    rfl
  | .const c => rfl
  | .attribute o attr => rfl
  | .call f' args' kws' => rfl
  | .binOp op l r => rfl
  | .unaryOp op e => rfl
  | .list es => rfl
  | .tuple es => rfl

theorem literalEval_binOp_other (l r : PyExpr) :
    literalEval (.binOp .other l r) = .error () := rfl

theorem literalEval_binOp_noncomplex (op : PyBinOp) (l r : PyExpr)
    (h : ∀ re im : Rat, r ≠ .const (.complex re im)) :
    literalEval (.binOp op l r) = .error () := by
  by_cases hop : op = .add ∨ op = .sub
  · cases hl : convertSignedNum l with
    | error e =>
      unfold literalEval
      rw [if_pos hop, hl]
    | ok lv =>
      cases hr : convertNum r with
      | error e =>
        unfold literalEval
        rw [if_pos hop, hl, hr]
        cases lv <;> rfl
      | ok rv =>
        cases rv with
        | complex re im => exact absurd (convertNum_complex hr) (h re im)
        | str s =>
          unfold literalEval
          rw [if_pos hop, hl, hr]
          cases lv <;> rfl
        | int n =>
          unfold literalEval
          rw [if_pos hop, hl, hr]
          cases lv <;> rfl
        | float q =>
          unfold literalEval
          rw [if_pos hop, hl, hr]
          cases lv <;> rfl
        | bool b =>
          unfold literalEval
          rw [if_pos hop, hl, hr]
          cases lv <;> rfl
        | none =>
          unfold literalEval
          rw [if_pos hop, hl, hr]
          cases lv <;> rfl
        | list es =>
          unfold literalEval
          rw [if_pos hop, hl, hr]
          cases lv <;> rfl
        | tuple es =>
          unfold literalEval
          rw [if_pos hop, hl, hr]
          cases lv <;> rfl
        | set0 =>
          unfold literalEval
          rw [if_pos hop, hl, hr]
          cases lv <;> rfl
  · unfold literalEval
    rw [if_neg hop]
    rfl

theorem convertSignedNum_binOp (op : PyBinOp) (l r : PyExpr) :
    convertSignedNum (.binOp op l r) = .error () := rfl

/-- The exact acceptance condition of the `BinOp` branch of `literal_eval`:
the expression evaluates successfully iff the operator is `Add`/`Sub`, the
right operand is a complex constant, and the left operand is a (possibly
signed) int or float constant — i.e. exactly the complex-literal form
`real ± imaginary`. -/
theorem literalEval_binOp_ok_iff (op : PyBinOp) (l r : PyExpr) :
    (∃ v, literalEval (.binOp op l r) = .ok v) ↔
      ((op = .add ∨ op = .sub) ∧
        (∃ re im : Rat, r = .const (.complex re im)) ∧
        ((∃ n : Int, convertSignedNum l = .ok (.int n)) ∨
          (∃ q : Rat, convertSignedNum l = .ok (.float q)))) := by
  constructor
  · rintro ⟨v, hv⟩
    by_cases hop : op = .add ∨ op = .sub
    · cases hl : convertSignedNum l with
      | error e =>
        unfold literalEval at hv
        rw [if_pos hop, hl] at hv
        exact Except.noConfusion hv
      | ok lv =>
        cases hr : convertNum r with
        | error e =>
          unfold literalEval at hv
          rw [if_pos hop, hl, hr] at hv
          cases lv <;> exact Except.noConfusion hv
        | ok rv =>
          unfold literalEval at hv
          rw [if_pos hop, hl, hr] at hv
          cases rv with
          | complex re im =>
            cases lv with
            | int n => exact ⟨hop, ⟨re, im, convertNum_complex hr⟩, Or.inl ⟨n, rfl⟩⟩
            | float q => exact ⟨hop, ⟨re, im, convertNum_complex hr⟩, Or.inr ⟨q, rfl⟩⟩
            | complex lre lim => exact Except.noConfusion hv
            | str s => exact Except.noConfusion hv
            | bool b => exact Except.noConfusion hv
            | none => exact Except.noConfusion hv
            | list es => exact Except.noConfusion hv
            | tuple es => exact Except.noConfusion hv
            | set0 => exact Except.noConfusion hv
          | str s => cases lv <;> exact Except.noConfusion hv
          | int n => cases lv <;> exact Except.noConfusion hv
          | float q => cases lv <;> exact Except.noConfusion hv
          | bool b => cases lv <;> exact Except.noConfusion hv
          | none => cases lv <;> exact Except.noConfusion hv
          | list es => cases lv <;> exact Except.noConfusion hv
          | tuple es => cases lv <;> exact Except.noConfusion hv
          | set0 => cases lv <;> exact Except.noConfusion hv
    · unfold literalEval at hv
      rw [if_neg hop, convertSignedNum_binOp] at hv
      exact Except.noConfusion hv
  · rintro ⟨hop, ⟨re, im, rfl⟩, hl⟩
    rcases hl with ⟨n, hl⟩ | ⟨q, hl⟩
    · refine ⟨realComplexOp op (n : Rat) re im, ?_⟩
      unfold literalEval
      rw [if_pos hop, hl]
      rfl
    · refine ⟨realComplexOp op q re im, ?_⟩
      unfold literalEval
      rw [if_pos hop, hl]
      rfl

/-- Every arithmetic shape outside the complex-literal form raises. -/
theorem literalEval_binOp_reject (op : PyBinOp) (l r : PyExpr)
    (h : ¬ ((op = .add ∨ op = .sub) ∧
        (∃ re im : Rat, r = .const (.complex re im)) ∧
        ((∃ n : Int, convertSignedNum l = .ok (.int n)) ∨
          (∃ q : Rat, convertSignedNum l = .ok (.float q))))) :
    literalEval (.binOp op l r) = .error () := by
  cases he : literalEval (.binOp op l r) with
  | error e => cases e; rfl
  | ok v => exact absurd ((literalEval_binOp_ok_iff op l r).mp ⟨v, he⟩) h

theorem parseActionCall_places (metadata k : String) (f ve : PyExpr) (v : PyVal)
    (hv : literalEval ve = .ok v) :
    parseActionCall metadata (.call f [] [(some k, ve)]) = .ok ⟨metadata, [(some k, v)]⟩ := by
  unfold parseActionCall parseKeywords
  rw [hv]
  rfl

/-- C1 amended: the parser evaluates every keyword argument with CPython's
literal evaluator.  Literal forms — strings, ints/floats, booleans, none, and
lists/tuples of such — are accepted and their values placed in the record;
identifier references and attribute accesses are always rejected; a nested
call is rejected unless it is exactly the zero-argument `set()` (which
`ast.literal_eval` accepts as the empty set); and an arithmetic expression is
accepted exactly when it is the complex-literal form — operator `Add`/`Sub`,
right operand a complex constant, left operand a (possibly signed) int or
float constant — so every other arithmetic shape (complex left operand,
non-constant operands, other operators, …) fails. -/
theorem parse_literal_only (md : String) :
    (∀ (f : PyExpr) (args : List PyExpr) (kws : List (Option String × PyExpr))
        (r : ActionRecord), parseActionCall md (.call f args kws) = .ok r →
        ∀ kv ∈ kws, ∃ v, literalEval kv.2 = .ok v) ∧
    (∀ e, acceptedLiteral e = true → ∃ v, literalEval e = .ok v) ∧
    (∀ (k : String) (f ve : PyExpr) (v : PyVal), literalEval ve = .ok v →
        parseActionCall md (.call f [] [(some k, ve)]) = .ok ⟨md, [(some k, v)]⟩) ∧
    (∀ id, literalEval (.name id) = .error ()) ∧
    (∀ o attr, literalEval (.attribute o attr) = .error ()) ∧
    (∀ f args kws, (f ≠ PyExpr.name "set" ∨ args ≠ [] ∨ kws ≠ []) →
        literalEval (.call f args kws) = .error ()) ∧
    (∀ op l r, (∃ v, literalEval (.binOp op l r) = .ok v) ↔
        ((op = .add ∨ op = .sub) ∧
          (∃ re im : Rat, r = .const (.complex re im)) ∧
          ((∃ n : Int, convertSignedNum l = .ok (.int n)) ∨
            (∃ q : Rat, convertSignedNum l = .ok (.float q))))) ∧
    (∀ op l r, ¬ ((op = .add ∨ op = .sub) ∧
          (∃ re im : Rat, r = .const (.complex re im)) ∧
          ((∃ n : Int, convertSignedNum l = .ok (.int n)) ∨
            (∃ q : Rat, convertSignedNum l = .ok (.float q)))) →
        literalEval (.binOp op l r) = .error ()) := by
  refine ⟨?_, accepted_sound, ?_, literalEval_name, literalEval_attribute,
    literalEval_call_reject, literalEval_binOp_ok_iff, literalEval_binOp_reject⟩
  · intro f args kws r h kv hkv
    exact parseKeywords_each kws _ _ h kv hkv
  · intro k f ve v hv
    exact parseActionCall_places md k f ve v hv

/-- A concrete stand-in for `ast.parse` mapping the exact CPython expression
tree of the call `do(element=set())`. -/
def astParseSetCall : String → Option PyExpr := fun s =>
  if s = "do(element=set())" then
    some (.call (.name "do") [] [(some "element", .call (.name "set") [] [])])
  else none

/-- C1 counterexample: the argument `set()` is a nested call, yet the parse
succeeds (CPython's `ast.literal_eval` special-cases the empty-set call), so
"any argument that is ... a nested call ... causes the parse to fail" is
false on the code. -/
theorem parse_literal_only_counterexample :
    parse_action astParseSetCall "do(element=set())"
      = .ok ⟨"do", [(some "element", PyVal.set0)]⟩ :=
  rfl

/-- Witness for `parse_literal_only`: a coordinate-pair literal is accepted,
an identifier argument is rejected, the all-complex sum `2j+3j` is rejected,
and the complex literal `1+2j` is accepted. -/
theorem parse_literal_only_witness :
    (∃ v, literalEval (.list [.const (.int 500), .const (.int 500)]) = .ok v) ∧
      literalEval (.name "x") = .error () ∧
      literalEval (.binOp .add (.const (.complex 0 2)) (.const (.complex 0 3)))
        = .error () ∧
      (∃ v, literalEval (.binOp .add (.const (.int 1)) (.const (.complex 0 2)))
        = .ok v) := by
  have h := parse_literal_only "do"
  refine ⟨h.2.1 _ (by decide), h.2.2.2.1 "x", h.2.2.2.2.2.2.2 _ _ _ ?_,
    (h.2.2.2.2.2.2.1 _ _ _).mpr ⟨Or.inl rfl, ⟨0, 2, rfl⟩, Or.inl ⟨1, rfl⟩⟩⟩
  rintro ⟨-, -, ⟨n, hn⟩ | ⟨q, hq⟩⟩
  · exact PyVal.noConfusion (Except.ok.inj hn)
  · exact PyVal.noConfusion (Except.ok.inj hq)

/-! ## IEEE-754 double model and coordinate conversion
(`ActionHandler._convert_relative_to_absolute`, handler.py 120-126)

`int(element[0] / 1000 * screen_width)` is evaluated by CPython in
double precision: the true division and the multiplication are each correctly
rounded to the nearest double (ties to even), the int operands are first
converted to double (exact below `2^53`), and `int()` truncates toward zero.
The model computes the same value with exact natural-number arithmetic: a
positive rational is rounded to 53 significant bits by scaling with powers of
two and rounding the scaled integer ratio half-to-even.  Exponents are
unbounded (no overflow or subnormals), which is faithful for every value
reachable from the 0-1000 coordinate space and any remotely real screen
size.  The model was cross-checked against CPython on thousands of inputs. -/

def nlog2 : Nat → Nat → Nat
  | 0, _ => 0
  | f + 1, n => if 2 ≤ n then nlog2 f (n / 2) + 1 else 0

/-- Smallest `k` with `den ≤ num * 2^k`, for `1 ≤ num < den ≤ fuel`. -/
def expDownAux : Nat → Nat → Nat → Nat
  | 0, _, _ => 0
  | f + 1, num, den => if den ≤ num then 0 else expDownAux f (num * 2) den + 1

/-- Floor of the base-2 logarithm of `num/den` (`num, den ≥ 1`). -/
def ratExp (num den : Nat) : Int :=
  if den ≤ num then (nlog2 num (num / den) : Int)
  else -(expDownAux den num den : Int)

/-- Round `n/d` to the nearest natural, ties to even. -/
def rhe (n d : Nat) : Nat :=
  let q := n / d
  let r := n % d
  if 2 * r < d then q
  else if d < 2 * r then q + 1
  else if q % 2 = 0 then q else q + 1

/-- Round the positive rational `num/den` to 53 significant bits:
returns `(m, e)` whose value is `m·2^(e−52)` with `2^52 ≤ m ≤ 2^53`. -/
def flRat (num den : Nat) : Nat × Int :=
  let e := ratExp num den
  let s : Int := 52 - e
  let n' := num * 2 ^ (max s 0).toNat
  let d' := den * 2 ^ (max (-s) 0).toNat
  (rhe n' d', e)

/-- `int(q / 1000 * w)` in double arithmetic for a nonnegative value
`q = qn/qd` (itself a double) and integer screen dimension `w`:
round `q/1000`, round the double of `w`, round their product, truncate. -/
def convertAxisPos (qn qd w : Nat) : Nat :=
  if qn = 0 ∨ w = 0 then 0
  else
    let p1 := flRat qn (qd * 1000)
    let pw := flRat w 1
    let num2 := p1.1 * pw.1 * 2 ^ (max (p1.2 + pw.2 - 104) 0).toNat
    let den2 := 2 ^ (max (104 - (p1.2 + pw.2)) 0).toNat
    let p2 := flRat num2 den2
    if 52 ≤ p2.2 then p2.1 * 2 ^ (p2.2 - 52).toNat else p2.1 / 2 ^ (52 - p2.2).toNat

/-- One axis of the conversion for a signed value: `int()` truncates toward
zero and IEEE rounding is symmetric under negation. -/
def convertAxis (xn : Int) (xd w : Nat) : Int :=
  if 0 ≤ xn then (convertAxisPos xn.toNat xd w : Int)
  else -(convertAxisPos (-xn).toNat xd w : Int)

/-- The numeric value of a Python scalar as an exact signed fraction;
booleans act as the ints 1/0 in Python arithmetic. -/
def pyNum : PyVal → Option (Int × Nat)
  | .int n => some (n, 1)
  | .float q => some (q.num, q.den)
  | .bool b => some (if b then 1 else 0, 1)
  | _ => none

/-- `ActionHandler._convert_relative_to_absolute(element, w, h)`: the two
axes are converted independently.  `none` models the `TypeError` or
`IndexError` that a non-indexable, too-short or non-numeric element raises
(caught at the `execute` boundary). -/
def convert_relative_to_absolute (element : PyVal) (w h : Nat) : Option (Int × Int) :=
  match element with
  | .list (vx :: vy :: _) | .tuple (vx :: vy :: _) =>
    match pyNum vx, pyNum vy with
    | some (xn, xd), some (yn, yd) => some (convertAxis xn xd w, convertAxis yn yd h)
    | _, _ => none
  | _ => none

/-! ## Action dispatch (`ActionHandler.execute`, handler.py 55-267)

The device driver surface (`phone_agent/adb`, not under src/ except the
screenshot module) is fire-and-forget per spec section 6; its commands are
recorded as an ordered effect trace, and the confirmation / takeover hooks
are injected outcomes.  `pyDisplay` abstracts Python `str()` inside
interpolated failure messages; only the presence of a message matters to the
claims. -/

structure ActionResult where
  success : Bool
  should_finish : Bool
  message : Option PyVal := none
  requires_confirmation : Bool := false
deriving Repr

inductive Effect where
  | launch (app : PyVal)
  | tap (x y : Int)
  | doubleTap (x y : Int)
  | longPress (x y : Int)
  | swipe (x1 y1 x2 y2 : Int)
  | back
  | home
  | setKeyboard
  | clearText
  | typeText (t : PyVal)
  | restoreKeyboard
  | wait (seconds : Rat)
  | confirmAsk (msg : PyVal)
  | takeoverAsk (msg : PyVal)
deriving Repr

/-- Injected collaborator outcomes: the confirmation callback's verdict and
whether `launch_app` finds the app. -/
structure DeviceEnv where
  confirm : PyVal → Bool
  launchOk : PyVal → Bool

def pyTruthy : PyVal → Bool
  | .str s => !(s == "")
  | .int n => !(n == 0)
  | .float q => !(q == 0)
  | .bool b => b
  | .none => false
  | .complex re im => !(re == 0 && im == 0)
  | .list es => !es.isEmpty
  | .tuple es => !es.isEmpty
  | .set0 => false

/-- Abstraction of Python `str()` for interpolated messages. -/
def pyDisplay : PyVal → String
  | .str s => s
  | .int n => toString n
  | .bool b => if b then "True" else "False"
  | .none => "None"
  | _ => "<value>"

def handle_launch (env : DeviceEnv) (a : ActionRecord) :
    Except String (ActionResult × List Effect) :=
  let app := (a.get "app").getD .none
  if !pyTruthy app then .ok (⟨false, false, some (.str "No app name specified"), false⟩, [])
  else if env.launchOk app then .ok (⟨true, false, none, false⟩, [.launch app])
  else .ok (⟨false, false, some (.str ("App not found: " ++ pyDisplay app)), false⟩, [.launch app])

def handle_tap (env : DeviceEnv) (a : ActionRecord) (w h : Nat) :
    Except String (ActionResult × List Effect) :=
  let el := (a.get "element").getD .none
  if !pyTruthy el then .ok (⟨false, false, some (.str "No element coordinates"), false⟩, [])
  else
    match convert_relative_to_absolute el w h with
    | none => .error "unsupported element"
    | some (x, y) =>
      if a.hasKey "message" then
        let msg := (a.get "message").getD .none
        if env.confirm msg then .ok (⟨true, false, none, false⟩, [.confirmAsk msg, .tap x y])
        else .ok (⟨false, true, some (.str "User cancelled sensitive operation"), false⟩,
          [.confirmAsk msg])
      else .ok (⟨true, false, none, false⟩, [.tap x y])

def handle_type (a : ActionRecord) : Except String (ActionResult × List Effect) :=
  let text := (a.get "text").getD (.str "")
  .ok (⟨true, false, none, false⟩, [.setKeyboard, .clearText, .typeText text, .restoreKeyboard])

def handle_swipe (a : ActionRecord) (w h : Nat) :
    Except String (ActionResult × List Effect) :=
  let start := (a.get "start").getD .none
  let stop := (a.get "end").getD .none
  if !pyTruthy start || !pyTruthy stop then
    .ok (⟨false, false, some (.str "Missing swipe coordinates"), false⟩, [])
  else
    match convert_relative_to_absolute start w h with
    | none => .error "unsupported element"
    | some (sx, sy) =>
      match convert_relative_to_absolute stop w h with
      | none => .error "unsupported element"
      | some (ex, ey) => .ok (⟨true, false, none, false⟩, [.swipe sx sy ex ey])

def handle_back : Except String (ActionResult × List Effect) :=
  .ok (⟨true, false, none, false⟩, [.back])

def handle_home : Except String (ActionResult × List Effect) :=
  .ok (⟨true, false, none, false⟩, [.home])

def handle_double_tap (a : ActionRecord) (w h : Nat) :
    Except String (ActionResult × List Effect) :=
  let el := (a.get "element").getD .none
  if !pyTruthy el then .ok (⟨false, false, some (.str "No element coordinates"), false⟩, [])
  else
    match convert_relative_to_absolute el w h with
    | none => .error "unsupported element"
    | some (x, y) => .ok (⟨true, false, none, false⟩, [.doubleTap x y])

def handle_long_press (a : ActionRecord) (w h : Nat) :
    Except String (ActionResult × List Effect) :=
  let el := (a.get "element").getD .none
  if !pyTruthy el then .ok (⟨false, false, some (.str "No element coordinates"), false⟩, [])
  else
    match convert_relative_to_absolute el w h with
    | none => .error "unsupported element"
    | some (x, y) => .ok (⟨true, false, none, false⟩, [.longPress x y])

/-- Outcome of CPython `float(str)`: a finite value, a signed infinity, or
NaN.  Finite values are kept as exact rationals — the final rounding of the
decimal literal to double precision is not modelled (the value only feeds
`time.sleep`) — but the accept/reject domain, the sign, and the
overflow-to-infinity threshold are exact. -/
inductive PyFloat where
  | fin (q : Rat)
  | inf (neg : Bool)
  | nan
deriving Repr

/-- A maximal run of ASCII digits with single underscores allowed between
digits (CPython's `digitpart`): value, number of digits, unconsumed rest.
Only entered when the first character is a digit. -/
def digitRunAux : Nat → List Char → Nat → Nat → Nat × Nat × List Char
  | 0, cs, v, k => (v, k, cs)
  | fuel + 1, cs, v, k =>
    match cs with
    | [] => (v, k, [])
    | c :: rest =>
      if c.isDigit then digitRunAux fuel rest (v * 10 + (c.toNat - 48)) (k + 1)
      else if c == '_' then
        match rest with
        | d :: rest2 =>
          if d.isDigit then digitRunAux fuel rest2 (v * 10 + (d.toNat - 48)) (k + 1)
          else (v, k, cs)
        | [] => (v, k, cs)
      else (v, k, cs)

def digitRun (cs : List Char) : Nat × Nat × List Char :=
  match cs with
  | c :: _ => if c.isDigit then digitRunAux cs.length cs 0 0 else (0, 0, cs)
  | [] => (0, 0, [])

/-- Finish a finite `float()` parse of magnitude `mag`: every double rounds
to infinity exactly when the value reaches the rounding midpoint
`(2^54 - 1)·2^970` between the largest finite double and `2^1024` (the
midpoint itself rounds up, since `2^53` is the even neighbour). -/
def mkPyFloat (neg : Bool) (mag : Rat) : PyFloat :=
  if ((2 ^ 54 - 1 : Nat) : Rat) * (2 : Rat) ^ (970 : Nat) ≤ mag then .inf neg
  else .fin (if neg then -mag else mag)

/-- CPython `float(s)`: surrounding whitespace, an optional sign, then
`inf`/`infinity`/`nan` (case-insensitive) or a decimal literal
`digitpart [. [digitpart]] [e[sign]digitpart]` (at least one mantissa digit,
underscores between digits).  `none` is the `ValueError`.  Digits and
whitespace are the ASCII classes, as elsewhere in this development. -/
def pyFloatOfChars (cs : List Char) : Option PyFloat :=
  let body := pyStrip cs
  let signed : Bool × List Char :=
    match body with
    | '-' :: rest => (true, rest)
    | '+' :: rest => (false, rest)
    | rest => (false, rest)
  let neg := signed.1
  let low := signed.2.map Char.toLower
  if low = "inf".data ∨ low = "infinity".data then some (.inf neg)
  else if low = "nan".data then some .nan
  else
    let ir := digitRun signed.2
    let fr : Nat × Nat × List Char :=
      match ir.2.2 with
      | '.' :: t => digitRun t
      | _ => (0, 0, ir.2.2)
    if ir.2.1 + fr.2.1 = 0 then none
    else
      let mant : Rat := (ir.1 : Rat) + (fr.1 : Rat) / (10 : Rat) ^ fr.2.1
      match fr.2.2 with
      | [] => some (mkPyFloat neg mant)
      | e :: t =>
        if e == 'e' || e == 'E' then
          let esigned : Bool × List Char :=
            match t with
            | '-' :: t2 => (true, t2)
            | '+' :: t2 => (false, t2)
            | t2 => (false, t2)
          let er := digitRun esigned.2
          if er.2.1 = 0 ∨ er.2.2 ≠ [] then none
          else if esigned.1 then some (mkPyFloat neg (mant / (10 : Rat) ^ er.1))
          else some (mkPyFloat neg (mant * (10 : Rat) ^ er.1))
        else none

/-- Remove every occurrence of `word` (Python `str.replace(word, "")`). -/
def removeWordAux (word : List Char) : Nat → List Char → List Char
  | 0, cs => cs
  | _ + 1, [] => []
  | fuel + 1, c :: cs =>
    if word.isPrefixOf (c :: cs) then removeWordAux word fuel ((c :: cs).drop word.length)
    else c :: removeWordAux word fuel cs

def removeWord (word cs : List Char) : List Char := removeWordAux word cs.length cs

/-- `_handle_wait`: `float()` raising `ValueError` selects the handler's
`except` default of 1.0; a successfully parsed value reaches `time.sleep`,
which itself rejects negative, NaN and infinite lengths (CPython raises
with the messages below; `execute` converts them into a recoverable
failure). -/
def handle_wait (a : ActionRecord) : Except String (ActionResult × List Effect) :=
  match (a.get "duration").getD (.str "1 seconds") with
  | .str s =>
    let stripped := pyStrip (removeWord "seconds".data s.data)
    match (pyFloatOfChars stripped).getD (.fin 1) with
    | .fin q =>
      if q < 0 then .error "sleep length must be non-negative"
      else .ok (⟨true, false, none, false⟩, [.wait q])
    | .inf _ => .error "timestamp out of range for platform time_t"
    | .nan => .error "Invalid value NaN (not a number)"
  | _ => .error "duration has no replace method"

def handle_takeover (a : ActionRecord) : Except String (ActionResult × List Effect) :=
  let msg := (a.get "message").getD (.str "User intervention required")
  .ok (⟨true, false, none, false⟩, [.takeoverAsk msg])

def handle_note : Except String (ActionResult × List Effect) :=
  .ok (⟨true, false, none, false⟩, [])

def handle_call_api : Except String (ActionResult × List Effect) :=
  .ok (⟨true, false, none, false⟩, [])

def handle_interact : Except String (ActionResult × List Effect) :=
  .ok (⟨true, false, some (.str "User interaction required"), false⟩, [])

/-- The static handler registry (`ActionHandler._get_handler`), fused with
the dispatch to each `_handle_*` method; `none` means no registered handler. -/
def runHandler (env : DeviceEnv) (name : String) (a : ActionRecord) (w h : Nat) :
    Option (Except String (ActionResult × List Effect)) :=
  if name == "Launch" then some (handle_launch env a)
  else if name == "Tap" then some (handle_tap env a w h)
  else if name == "Type" || name == "Type_Name" then some (handle_type a)
  else if name == "Swipe" then some (handle_swipe a w h)
  else if name == "Back" then some handle_back
  else if name == "Home" then some handle_home
  else if name == "Double Tap" then some (handle_double_tap a w h)
  else if name == "Long Press" then some (handle_long_press a w h)
  else if name == "Wait" then some (handle_wait a)
  else if name == "Take_over" then some (handle_takeover a)
  else if name == "Note" then some handle_note
  else if name == "Call_API" then some handle_call_api
  else if name == "Interact" then some handle_interact
  else none

/-- `ActionHandler.execute` (handler.py 55-98): the finish branch, the
unknown-tag guard, handler lookup with the unknown-action branch, and the
try/except that converts a handler fault into a recoverable failure.  Every
modelled handler faults only before its first device effect, so discarding
the trace of a faulting handler is exact. -/
def execute (env : DeviceEnv) (a : ActionRecord) (w h : Nat) : ActionResult × List Effect :=
  if a.metadata == "finish" then (⟨true, true, a.get "message", false⟩, [])
  else if !(a.metadata == "do") then
    (⟨false, true, some (.str ("Unknown action type: " ++ a.metadata)), false⟩, [])
  else
    match a.get "action" with
    | some (.str name) =>
      match runHandler env name a w h with
      | some (.ok pr) => pr
      | some (.error e) =>
        (⟨false, false, some (.str ("Action failed: " ++ e)), false⟩, [])
      | none => (⟨false, false, some (.str ("Unknown action: " ++ name)), false⟩, [])
    | other =>
      (⟨false, false, some (.str ("Unknown action: " ++ pyDisplay (other.getD .none))), false⟩, [])

/-! ### The sensitive-action gate (C3) -/

/-- C3: dispatching a `Do`/`Tap` record that carries a `"message"` field asks
the confirmation callback with that message before the tap command; on
rejection the tap is never issued and the result is success=false,
shouldFinish=true with the cancellation message. -/
theorem tap_confirmation_gate (env : DeviceEnv) (a : ActionRecord) (w h : Nat)
    (el msg : PyVal) (x y : Int)
    (hmd : a.metadata = "do")
    (hact : a.get "action" = some (.str "Tap"))
    (hel : a.get "element" = some el)
    (htr : pyTruthy el = true)
    (hconv : convert_relative_to_absolute el w h = some (x, y))
    (hkey : a.hasKey "message" = true)
    (hmsg : a.get "message" = some msg) :
    (env.confirm msg = true →
      execute env a w h = (⟨true, false, none, false⟩, [.confirmAsk msg, .tap x y])) ∧
    (env.confirm msg = false →
      execute env a w h
        = (⟨false, true, some (.str "User cancelled sensitive operation"), false⟩,
          [.confirmAsk msg])) ∧
    (env.confirm msg = false →
      ∀ x' y', Effect.tap x' y' ∉ (execute env a w h).2) := by
  have hbase : execute env a w h =
      (if env.confirm msg then
        (⟨true, false, none, false⟩, [.confirmAsk msg, .tap x y])
      else
        (⟨false, true, some (.str "User cancelled sensitive operation"), false⟩,
          [.confirmAsk msg])) := by
    unfold execute runHandler handle_tap
    simp [hmd, hact, hel, hmsg, hconv, htr, hkey]
    split_ifs with hc <;> rfl
  refine ⟨fun hc => ?_, fun hc => ?_, fun hc x' y' => ?_⟩
  · rw [hbase, if_pos hc]
  · rw [hbase, if_neg (by simp [hc])]
  · rw [hbase, if_neg (by simp [hc])]
    simp

/-- Concrete record used in witnesses: a sensitive tap. -/
def aTapMsg : ActionRecord :=
  ⟨"do", [(some "action", .str "Tap"), (some "element", .list [.int 500, .int 500]),
    (some "message", .str "confirm payment?")]⟩

/-- A device environment whose confirmation hook declines. -/
def envDecline : DeviceEnv := ⟨fun _ => false, fun _ => true⟩

/-- Witness for `tap_confirmation_gate`: a declining hook on a concrete
sensitive tap yields the cancellation result and no tap effect. -/
theorem tap_confirmation_gate_witness :
    execute envDecline aTapMsg 1080 2400
        = (⟨false, true, some (.str "User cancelled sensitive operation"), false⟩,
          [.confirmAsk (.str "confirm payment?")]) ∧
      ∀ x' y', Effect.tap x' y' ∉ (execute envDecline aTapMsg 1080 2400).2 := by
  have h := tap_confirmation_gate envDecline aTapMsg 1080 2400
    (.list [.int 500, .int 500]) (.str "confirm payment?") 540 1200
    rfl rfl rfl (by decide) (by decide) rfl rfl
  exact ⟨h.2.1 rfl, h.2.2 rfl⟩

/-! ### Coordinate conversion (C5) -/

theorem nlog2_spec : ∀ (fuel n : Nat), 1 ≤ n → n ≤ fuel →
    2 ^ nlog2 fuel n ≤ n ∧ n < 2 ^ (nlog2 fuel n + 1) := by
  intro fuel
  induction fuel with
  | zero => intro n h1 h2; omega
  | succ f ih =>
    intro n h1 h2
    unfold nlog2
    split
    · rename_i h2n
      have hrec := ih (n / 2) (by omega) (by omega)
      have hp1 : 2 ^ (nlog2 f (n / 2) + 1) = 2 * 2 ^ nlog2 f (n / 2) := by ring
      have hp2 : 2 ^ (nlog2 f (n / 2) + 1 + 1) = 2 * 2 ^ (nlog2 f (n / 2) + 1) := by ring
      obtain ⟨ha, hb⟩ := hrec
      constructor
      · omega
      · omega
    · rename_i h2n
      have hn : n = 1 := by omega
      subst hn
      norm_num

theorem rhe_mul (a d : Nat) (hd : 0 < d) : rhe (a * d) d = a := by
  unfold rhe
  rw [Nat.mul_div_cancel a hd, Nat.mul_mod_left]
  simp [hd]

theorem pow2_bracket_unique {a b n : Nat}
    (ha1 : 2 ^ a ≤ n) (ha2 : n < 2 ^ (a + 1))
    (hb1 : 2 ^ b ≤ n) (hb2 : n < 2 ^ (b + 1)) : a = b := by
  by_contra hne
  rcases Nat.lt_or_ge a b with hlt | hge
  · have : (2 : Nat) ^ (a + 1) ≤ 2 ^ b := Nat.pow_le_pow_right (by norm_num) hlt
    omega
  · have hblta : b < a := by omega
    have : (2 : Nat) ^ (b + 1) ≤ 2 ^ a := Nat.pow_le_pow_right (by norm_num) hblta
    omega

/-- Rounding an exact multiple of the granule is exact: on `x·2^p / 2^p` with
`2^k ≤ x < 2^(k+1)` and `k ≤ 52`, `flRat` returns mantissa `x·2^(52−k)`. -/
theorem flRat_exact_pow (x p k : Nat) (hx : 1 ≤ x)
    (hbr1 : 2 ^ k ≤ x) (hbr2 : x < 2 ^ (k + 1)) (hk52 : k ≤ 52) :
    flRat (x * 2 ^ p) (2 ^ p) = (x * 2 ^ (52 - k), (k : Int)) := by
  have hp : (0 : Nat) < 2 ^ p := Nat.pos_pow_of_pos p (by norm_num)
  have hden_le : 2 ^ p ≤ x * 2 ^ p := Nat.le_mul_of_pos_left _ hx
  have hdiv : x * 2 ^ p / 2 ^ p = x := Nat.mul_div_cancel x hp
  have hfuel : x ≤ x * 2 ^ p := Nat.le_mul_of_pos_right x hp
  have hspec := nlog2_spec (x * 2 ^ p) x hx hfuel
  have hk : nlog2 (x * 2 ^ p) x = k :=
    pow2_bracket_unique hspec.1 hspec.2 hbr1 hbr2
  have h1 : (max ((52 : Int) - k) 0).toNat = 52 - k := by omega
  have h2 : (max (-((52 : Int) - k)) 0).toNat = 0 := by omega
  have h3 : x * 2 ^ p * 2 ^ (52 - k) = x * 2 ^ (52 - k) * 2 ^ p := by ring
  unfold flRat ratExp
  rw [if_pos hden_le, hdiv, hk]
  simp only [h1, h2, pow_zero, mul_one]
  rw [h3, rhe_mul _ _ hp]

/-- `int(1000/1000 * w) = w` in double arithmetic for every screen dimension
up to `2^53` (beyond which the int-to-double conversion of `w` itself is
lossy). -/
theorem convertAxisPos_1000 (w : Nat) (h1 : 1 ≤ w) (h53 : w ≤ 2 ^ 53) :
    convertAxisPos 1000 1 w = w := by
  rcases Nat.lt_or_ge w (2 ^ 53) with hlt | hge
  · -- w < 2^53, so its base-2 exponent k is at most 52
    have hw0 : ¬ (1000 = 0 ∨ w = 0) := by omega
    have hspecw := nlog2_spec w w h1 le_rfl
    obtain ⟨k, hk1, hk2⟩ : ∃ k, 2 ^ k ≤ w ∧ w < 2 ^ (k + 1) :=
      ⟨nlog2 w w, hspecw.1, hspecw.2⟩
    have hk52 : k ≤ 52 := by
      by_contra hgt
      have h53le : (53 : Nat) ≤ k := by omega
      have : (2 : Nat) ^ 53 ≤ 2 ^ k := Nat.pow_le_pow_right (by norm_num) h53le
      omega
    have hpw : flRat w 1 = (w * 2 ^ (52 - k), (k : Int)) := by
      have := flRat_exact_pow w 0 k h1 hk1 hk2 hk52
      simpa using this
    have hp1 : flRat 1000 (1 * 1000) = (2 ^ 52, (0 : Int)) := by decide
    have hp2 : flRat (w * 2 ^ (104 - k)) (2 ^ (104 - k))
        = (w * 2 ^ (52 - k), (k : Int)) :=
      flRat_exact_pow w (104 - k) k h1 hk1 hk2 hk52
    have e1 : (max ((0 : Int) + k - 104) 0).toNat = 0 := by omega
    have e2 : (max ((104 : Int) - (0 + k)) 0).toNat = 104 - k := by omega
    have e3 : (2 : Nat) ^ 52 * (w * 2 ^ (52 - k)) = w * 2 ^ (104 - k) := by
      have hpp : (2 : Nat) ^ 52 * 2 ^ (52 - k) = 2 ^ (104 - k) := by
        rw [← pow_add]
        congr 1
        omega
      calc (2 : Nat) ^ 52 * (w * 2 ^ (52 - k)) = w * ((2 : Nat) ^ 52 * 2 ^ (52 - k)) := by ring
        _ = w * 2 ^ (104 - k) := by rw [hpp]
    unfold convertAxisPos
    rw [if_neg hw0, hp1, hpw]
    simp only [e1, e2, pow_zero, mul_one]
    rw [e3, hp2]
    show (if (52 : Int) ≤ (k : Int) then
        w * 2 ^ (52 - k) * 2 ^ (((k : Int)) - 52).toNat
      else w * 2 ^ (52 - k) / 2 ^ ((52 - (k : Int)).toNat)) = w
    rcases Nat.lt_or_ge k 52 with hk51 | hk52'
    · rw [if_neg (by omega)]
      have e4 : ((52 : Int) - k).toNat = 52 - k := by omega
      rw [e4]
      exact Nat.mul_div_cancel w (Nat.pos_pow_of_pos _ (by norm_num))
    · have hk52eq : k = 52 := by omega
      subst hk52eq
      rw [if_pos (by omega)]
      norm_num
  · have hw : w = 2 ^ 53 := by omega
    subst hw
    decide

/-- C5 amended: the conversion truncates the double-precision evaluation of
`n/1000 × dim` per axis.  The cited instances hold: `[500,500]` on a
1080×2400 screen gives `(540, 1200)`, `[0,0]` gives `(0,0)` on every screen,
and `[1000,1000]` gives `(w, h)` for all screen dimensions up to `2^53`; the
two axes are converted independently; and the same conversion feeds the tap,
double-tap, long-press and both swipe endpoints.  (The double rounding can
land one below the exact floor — see the counterexample — so the universal
floor formula of the original claim is false.) -/
theorem coordinate_conversion :
    (∀ w h : Nat, convert_relative_to_absolute (.list [.int 0, .int 0]) w h = some (0, 0)) ∧
    (convert_relative_to_absolute (.list [.int 500, .int 500]) 1080 2400 = some (540, 1200)) ∧
    (∀ w h : Nat, 1 ≤ w → w ≤ 2 ^ 53 → 1 ≤ h → h ≤ 2 ^ 53 →
      convert_relative_to_absolute (.list [.int 1000, .int 1000]) w h
        = some ((w : Int), (h : Int))) ∧
    (∀ (x y : Int) (w h : Nat),
      convert_relative_to_absolute (.list [.int x, .int y]) w h
        = some (convertAxis x 1 w, convertAxis y 1 h)) ∧
    (∀ (env : DeviceEnv) (a : ActionRecord) (w h : Nat) (el : PyVal) (x y : Int),
      a.metadata = "do" → a.get "action" = some (.str "Tap") →
      a.get "element" = some el → pyTruthy el = true → a.hasKey "message" = false →
      convert_relative_to_absolute el w h = some (x, y) →
      execute env a w h = (⟨true, false, none, false⟩, [.tap x y])) ∧
    (∀ (env : DeviceEnv) (a : ActionRecord) (w h : Nat) (el : PyVal) (x y : Int),
      a.metadata = "do" → a.get "action" = some (.str "Double Tap") →
      a.get "element" = some el → pyTruthy el = true →
      convert_relative_to_absolute el w h = some (x, y) →
      execute env a w h = (⟨true, false, none, false⟩, [.doubleTap x y])) ∧
    (∀ (env : DeviceEnv) (a : ActionRecord) (w h : Nat) (el : PyVal) (x y : Int),
      a.metadata = "do" → a.get "action" = some (.str "Long Press") →
      a.get "element" = some el → pyTruthy el = true →
      convert_relative_to_absolute el w h = some (x, y) →
      execute env a w h = (⟨true, false, none, false⟩, [.longPress x y])) ∧
    (∀ (env : DeviceEnv) (a : ActionRecord) (w h : Nat) (s e : PyVal) (sx sy ex ey : Int),
      a.metadata = "do" → a.get "action" = some (.str "Swipe") →
      a.get "start" = some s → a.get "end" = some e →
      pyTruthy s = true → pyTruthy e = true →
      convert_relative_to_absolute s w h = some (sx, sy) →
      convert_relative_to_absolute e w h = some (ex, ey) →
      execute env a w h = (⟨true, false, none, false⟩, [.swipe sx sy ex ey])) := by
  refine ⟨?_, by decide, ?_, ?_, ?_, ?_, ?_, ?_⟩
  · intro w h
    simp [convert_relative_to_absolute, pyNum, convertAxis, convertAxisPos]
  · intro w h hw1 hw2 hh1 hh2
    simp only [convert_relative_to_absolute, pyNum]
    rw [show convertAxis 1000 1 w = (w : Int) by
        simp [convertAxis, convertAxisPos_1000 w hw1 hw2],
      show convertAxis 1000 1 h = (h : Int) by
        simp [convertAxis, convertAxisPos_1000 h hh1 hh2]]
  · intro x y w h
    simp [convert_relative_to_absolute, pyNum]
  · intro env a w h el x y hmd hact hel htr hkey hconv
    unfold execute runHandler handle_tap
    simp [hmd, hact, hel, hconv, htr, hkey]
  · intro env a w h el x y hmd hact hel htr hconv
    unfold execute runHandler handle_double_tap
    simp [hmd, hact, hel, hconv, htr]
  · intro env a w h el x y hmd hact hel htr hconv
    unfold execute runHandler handle_long_press
    simp [hmd, hact, hel, hconv, htr]
  · intro env a w h s e sx sy ex ey hmd hact hs he hts hte hcs hce
    unfold execute runHandler handle_swipe
    simp [hmd, hact, hs, he, hcs, hce, hts, hte]

/-- C5 counterexample: normalized 580 on a 100-pixel axis.  The exact formula
gives `floor(580·100/1000) = 58`, but the double-precision evaluation
`int(580/1000*100)` yields 57 (0.58 is stored as 0.57999999999999996), per
axis, so the claimed floor identity fails. -/
theorem coordinate_conversion_counterexample :
    convert_relative_to_absolute (.list [.int 580, .int 580]) 100 100 = some (57, 57) ∧
      580 * 100 / 1000 = (58 : Nat) ∧ (57 : Int) ≠ 58 := by
  refine ⟨by decide, by norm_num, by norm_num⟩

/-- Witness for `coordinate_conversion` at concrete screens and a concrete
tap dispatch. -/
theorem coordinate_conversion_witness :
    convert_relative_to_absolute (.list [.int 1000, .int 1000]) 1080 2400
        = some (1080, 2400) ∧
      execute envDecline
          ⟨"do", [(some "action", .str "Tap"), (some "element", .list [.int 500, .int 500])]⟩
          1080 2400
        = (⟨true, false, none, false⟩, [.tap 540 1200]) := by
  have h := coordinate_conversion
  exact ⟨h.2.2.1 1080 2400 (by norm_num) (by norm_num) (by norm_num) (by norm_num),
    h.2.2.2.2.1 envDecline _ 1080 2400 (.list [.int 500, .int 500]) 540 1200
      rfl rfl rfl (by decide) (by decide) (by decide)⟩

/-! ### Extraction of the call substring (C4) -/

/-- If the string-aware bracket scan terminates inside `cs`, appending more
text does not change where it terminates. -/
theorem scanEnd_append (bs : List Char) :
    ∀ (cs : List Char) (st : ScanSt) (j : Nat),
      scanEnd st cs = some j → scanEnd st (cs ++ bs) = some j := by
  intro cs
  induction cs with
  | nil =>
    intro st j h
    cases h
  | cons c cs ih =>
    intro st j h
    simp only [scanEnd, List.append_eq] at h ⊢
    by_cases hc : (!st.inStr && c == ')' && st.depth == 1) = true
    · rw [if_pos hc] at h ⊢
      exact h
    · rw [if_neg hc] at h ⊢
      obtain ⟨j', hj', rfl⟩ := Option.map_eq_some'.mp h
      rw [ih _ _ hj']
      rfl

/-- The left-to-right search returns the first matching position: if nothing
in `pre` matches and the junction does, the result is `pre.length`. -/
theorem findCallAux_first (name : List Char) :
    ∀ (pre suf : List Char) (prev : Option Char),
      noCallPre name prev pre suf = true →
      callHere name (lastPrev prev pre) suf = true →
      findCallAux name (pre ++ suf) prev = some pre.length := by
  intro pre
  induction pre with
  | nil =>
    intro suf prev hn hc
    cases suf with
    | nil => simp [callHere, matchesCall, lastPrev] at hc
    | cons c cs =>
      show findCallAux name (c :: cs) prev = some 0
      simp only [findCallAux]
      rw [if_pos (show callHere name prev (c :: cs) = true from hc)]
  | cons c pre ih =>
    intro suf prev hn hc
    unfold noCallPre at hn
    rw [Bool.and_eq_true] at hn
    have hfalse : ¬ (callHere name prev (c :: (pre ++ suf)) = true) := by
      simpa using hn.1
    show findCallAux name (c :: (pre ++ suf)) prev = some (pre.length + 1)
    simp only [findCallAux]
    rw [if_neg hfalse, ih suf (some c) hn.2 hc]
    rfl

/-- C4 amended: on ASCII text (where the model's word and whitespace classes
coincide with Python's Unicode-aware `\b` and `\s`) whose sanitization passes
are the identity (no markup tags, code fences, think marker or fullwidth
punctuation anywhere, and no surrounding whitespace), where no earlier
position matches the call pattern, extraction returns exactly the call
substring: the scan starts at the first `\bNAME(` match and honors quoted
strings (with escapes), so parentheses inside string arguments do not end
the call early.  (When the sanitization does rewrite the text — e.g. a
markup tag inside a string argument — the returned substring differs from
the original call; see the counterexample.) -/
theorem extract_call_exact (text pre call post name tail : List Char) (j : Nat)
    (hascii : ∀ c ∈ text, c.toNat ≤ 127)
    (hsplit : text = pre ++ call ++ post)
    (hclean : cleanText text = text)
    (hnocall : noCallPre name none pre (call ++ post) = true)
    (hbound : boundaryOk (lastPrev none pre) = true)
    (hshape : call = name ++ '(' :: tail)
    (hscan : scanEnd scanInit call = some j)
    (hlen : call.length = j + 1) :
    extractCall text name = some call := by
  subst hsplit
  rw [List.append_assoc] at hclean
  rw [List.append_assoc]
  have hmatch : matchesCall name (call ++ post) = true := by
    unfold matchesCall
    rw [hshape, List.append_assoc, Bool.and_eq_true]
    constructor
    · rw [List.isPrefixOf_iff_prefix]
      exact List.prefix_append _ _
    · rw [List.drop_left]
      simp [pySpace]
  have hfind : findCallAux name (pre ++ (call ++ post)) none = some pre.length :=
    findCallAux_first name pre (call ++ post) none hnocall
      (by unfold callHere; rw [hbound, hmatch]; rfl)

  have hscan2 : scanEnd scanInit (call ++ post) = some j :=
    scanEnd_append post call scanInit j hscan
  unfold extractCall
  simp only [hclean, hfind]
  rw [List.drop_left, hscan2]
  show some ((call ++ post).take (j + 1)) = some call
  rw [← hlen, List.take_left]

/-- C4 counterexample: a well-formed call whose string argument contains a
markup-shaped substring.  The tag-stripping pass rewrites text inside the
quoted argument, so extraction returns a different substring than the call:
`do(action="Tap", note="a<b>c")` comes back as `do(action="Tap", note="a c")`. -/
theorem extract_call_counterexample :
    extract_call_expression "do(action=\"Tap\", note=\"a<b>c\")" "do"
        = some "do(action=\"Tap\", note=\"a c\")" ∧
      ("do(action=\"Tap\", note=\"a c\")" : String) ≠ "do(action=\"Tap\", note=\"a<b>c\")" :=
  ⟨rfl, by decide⟩

/-- Witness for `extract_call_exact`: a prefix, a call with parentheses and
an escaped quote inside string arguments, and a suffix.  The extracted
substring is exactly the call. -/
theorem extract_call_exact_witness :
    extractCall "Result: do(action=\"Tap\", note=\"(ok) \\\" fine\") trailing".data "do".data
      = some "do(action=\"Tap\", note=\"(ok) \\\" fine\")".data := by
  apply extract_call_exact "Result: do(action=\"Tap\", note=\"(ok) \\\" fine\") trailing".data
    "Result: ".data "do(action=\"Tap\", note=\"(ok) \\\" fine\")".data " trailing".data
    "do".data "action=\"Tap\", note=\"(ok) \\\" fine\")".data 36
  · decide
  · decide
  · decide
  · decide
  · decide
  · decide
  · decide
  · decide

/-! ## The step controller (`PhoneAgent`, agent.py 116-324)

External collaborators enter as parameters: the model client is a sequence of
request outcomes indexed by request number (spec section 6: request is
blocking, faults propagate), the observation source never raises (spec
section 6), and `parse_action` composed through CPython's `ast.parse` enters
as a function, as in `parse_action` above.  The message constructors are
modelled from the spec: `MessageBuilder` (phone_agent/model/client.py) is not
under src/; per spec section 3 a message is role + text + optional image and
images are detachable. -/

structure ModelResponse where
  thinking : String
  action : String

structure AgentConfig where
  max_context_messages : Int
  system_prompt : String

structure AgentEnv where
  responses : Nat → Except String ModelResponse
  parseA : String → Except String ActionRecord
  device : DeviceEnv
  screenshotW : Nat
  screenshotH : Nat
  screenshotData : String
  screenInfo : String

structure AgentState where
  context : List Msg
  step_count : Nat
  reqIdx : Nat
  reqLog : List (List Msg)
  obsCount : Nat
deriving Repr

structure StepResult where
  success : Bool
  finished : Bool
  action : Option ActionRecord
  thinking : String
  message : Option PyVal := none
deriving Repr

/-- Modelled from the spec: `MessageBuilder.create_user_message`. -/
def create_user_message (text : String) (image : Option String) : Msg :=
  ⟨.user, text, image⟩

/-- Modelled from the spec: `MessageBuilder.create_system_message`. -/
def create_system_message (text : String) : Msg :=
  ⟨.system, text, none⟩

/-- Modelled from the spec: `MessageBuilder.create_assistant_message`. -/
def create_assistant_message (text : String) : Msg :=
  ⟨.assistant, text, none⟩

/-- Modelled from the spec: `MessageBuilder.remove_images_from_message`. -/
def remove_images_from_message (m : Msg) : Msg :=
  ⟨m.role, m.text, none⟩

/-- The corrective format reminder of `_retry_action_request` (agent.py
190-195).  The literal is a fixed Chinese instruction string; its exact
wording is immaterial to every claim, only its identity as the appended
user message matters. -/
def retryPrompt : String :=
  "Previous reply was not in the required format; reply with exactly one action call."

/-- `self._trim_context()` as called inside a step: the context is nonempty
there (an observation message was just appended), so the `IndexError` case
of `trim` is unreachable and `getD` is exact. -/
def stepTrim (maxMsgs : Int) (ctx : List Msg) : List Msg :=
  (trim maxMsgs ctx).getD ctx

/-- `self._context[-1] = MessageBuilder.remove_images_from_message(...)`. -/
def setLastNoImage (ctx : List Msg) : List Msg :=
  match ctx.getLast? with
  | none => ctx
  | some m => ctx.dropLast ++ [remove_images_from_message m]

/-- `PhoneAgent._retry_action_request` (agent.py 188-213): append the
reminder, trim, issue exactly one further request; a parse failure on the
retry yields `finish(message=<raw retry text>)`, a faulted retry request
yields `finish(message=<first failed text>)`.  Returns the resolved action,
the new context, the next request index and the request log. -/
def retry_action_request (cfg : AgentConfig) (env : AgentEnv) (failedText : String)
    (ctx : List Msg) (reqIdx : Nat) (reqLog : List (List Msg)) :
    ActionRecord × List Msg × Nat × List (List Msg) :=
  let ctx2 := stepTrim cfg.max_context_messages (ctx ++ [create_user_message retryPrompt none])
  match env.responses reqIdx with
  | .ok r2 =>
    match env.parseA r2.action with
    | .ok a => (a, ctx2, reqIdx + 1, reqLog ++ [ctx2])
    | .error _ => (finishRecord (.str r2.action), ctx2, reqIdx + 1, reqLog ++ [ctx2])
  | .error _ => (finishRecord (.str failedText), ctx2, reqIdx + 1, reqLog ++ [ctx2])

/-- The message-building phase of `_execute_step` (agent.py 226-247): the
observation message (with the system prompt and task on the first step)
appended to the context. -/
def observeContext (cfg : AgentConfig) (env : AgentEnv) (task : Option String)
    (isFirst : Bool) (ctx : List Msg) : List Msg :=
  let obsText :=
    if isFirst then (task.getD "") ++ "\n\n" ++ env.screenInfo
    else "** Screen Info **\n\n" ++ env.screenInfo
  if isFirst then
    ctx ++ [create_system_message cfg.system_prompt,
      create_user_message obsText (some env.screenshotData)]
  else ctx ++ [create_user_message obsText (some env.screenshotData)]

/-- `PhoneAgent._execute_step` (agent.py 215-324): observe, build messages,
trim, request, parse (with the one-shot retry), dispatch, strip the image
from the latest message, append the assistant turn, and decide termination. -/
def execute_step (cfg : AgentConfig) (env : AgentEnv) (task : Option String)
    (isFirst : Bool) (st : AgentState) : StepResult × AgentState :=
  let ctx1 := stepTrim cfg.max_context_messages (observeContext cfg env task isFirst st.context)
  match env.responses st.reqIdx with
  | .error e =>
    (⟨false, true, none, "", some (.str ("Model error: " ++ e))⟩,
      ⟨ctx1, st.step_count + 1, st.reqIdx + 1, st.reqLog ++ [ctx1], st.obsCount + 1⟩)
  | .ok resp =>
    let retried :=
      match env.parseA resp.action with
      | .ok a => (a, ctx1, st.reqIdx + 1, st.reqLog ++ [ctx1])
      | .error _ =>
        retry_action_request cfg env resp.action ctx1 (st.reqIdx + 1) (st.reqLog ++ [ctx1])
    let action := retried.1
    let ctx3 := setLastNoImage retried.2.1
    let res := (execute env.device action env.screenshotW env.screenshotH).1
    let ctx4 := ctx3 ++ [create_assistant_message
      ("<think>" ++ resp.thinking ++ "</think><answer>" ++ resp.action ++ "</answer>")]
    let finished := action.metadata == "finish" || res.should_finish
    let msg :=
      match res.message with
      | some v => if pyTruthy v then some v else action.get "message"
      | none => action.get "message"
    (⟨res.success, finished, some action, resp.thinking, msg⟩,
      ⟨ctx4, st.step_count + 1, retried.2.2.1, retried.2.2.2, st.obsCount + 1⟩)

/-- `PhoneAgent.step` (agent.py 116-133): raises `ValueError` when called on
an empty context without a (truthy) task, before any work happens. -/
def PhoneAgent.step (cfg : AgentConfig) (env : AgentEnv) (task : Option String)
    (st : AgentState) : Except String StepResult × AgentState :=
  let isFirst := st.context.isEmpty
  if isFirst ∧ (task = none ∨ task = some "") then
    (.error "Task is required for the first step", st)
  else
    let r := execute_step cfg env task isFirst st
    (.ok r.1, r.2)

/-! ### One-shot parse retry (C2) -/

/-- C2: when a step's first model output fails to parse, the controller
issues exactly one additional request — on the context extended by the
corrective message and trimmed — and never a third (the request counter
advances by exactly 2 and the request log grows by exactly those two
contexts).  If the retry output also fails to parse, the step resolves to a
Finish action whose message is the raw retry text; if the retry request
itself faults, to a Finish action carrying the first attempt's raw text as
the diagnostic.  Either way the step reports finished. -/
theorem parse_retry_bounded (cfg : AgentConfig) (env : AgentEnv) (task : Option String)
    (isFirst : Bool) (st : AgentState) (r : ModelResponse) (e : String)
    (hfirst : env.responses st.reqIdx = .ok r)
    (hfail : env.parseA r.action = .error e) :
    ((execute_step cfg env task isFirst st).2.reqIdx = st.reqIdx + 2) ∧
    ((execute_step cfg env task isFirst st).2.reqLog = st.reqLog ++
      [stepTrim cfg.max_context_messages (observeContext cfg env task isFirst st.context),
       stepTrim cfg.max_context_messages
         (stepTrim cfg.max_context_messages (observeContext cfg env task isFirst st.context)
           ++ [create_user_message retryPrompt none])]) ∧
    (∀ r2 e2, env.responses (st.reqIdx + 1) = .ok r2 → env.parseA r2.action = .error e2 →
      (execute_step cfg env task isFirst st).1.action = some (finishRecord (.str r2.action)) ∧
      (execute_step cfg env task isFirst st).1.finished = true) ∧
    (∀ f, env.responses (st.reqIdx + 1) = .error f →
      (execute_step cfg env task isFirst st).1.action = some (finishRecord (.str r.action)) ∧
      (execute_step cfg env task isFirst st).1.finished = true) := by
  cases hs2 : env.responses (st.reqIdx + 1) with
  | ok r2 =>
    cases hp2 : env.parseA r2.action with
    | ok a2 =>
      refine ⟨?_, ?_, ?_, ?_⟩
      · simp only [execute_step, retry_action_request, hfirst, hfail, hs2, hp2]
      · simp only [execute_step, retry_action_request, hfirst, hfail, hs2, hp2]
        simp
      · intro r2' e2' hs2' hp2'
        cases Except.ok.inj hs2'
        rw [hp2] at hp2'
        exact Except.noConfusion hp2'
      · intro f hf
        exact Except.noConfusion hf
    | error e2 =>
      refine ⟨?_, ?_, ?_, ?_⟩
      · simp only [execute_step, retry_action_request, hfirst, hfail, hs2, hp2]
      · simp only [execute_step, retry_action_request, hfirst, hfail, hs2, hp2]
        simp
      · intro r2' e2' hs2' hp2'
        cases Except.ok.inj hs2'
        constructor
        · simp only [execute_step, retry_action_request, hfirst, hfail, hs2, hp2]
        · simp only [execute_step, retry_action_request, hfirst, hfail, hs2, hp2]
          simp [finishRecord]
      · intro f hf
        exact Except.noConfusion hf
  | error f =>
    refine ⟨?_, ?_, ?_, ?_⟩
    · simp only [execute_step, retry_action_request, hfirst, hfail, hs2]
    · simp only [execute_step, retry_action_request, hfirst, hfail, hs2]
      simp
    · intro r2' e2' hs2' hp2'
      exact Except.noConfusion hs2'
    · intro f' hf
      constructor
      · simp only [execute_step, retry_action_request, hfirst, hfail, hs2]
      · simp only [execute_step, retry_action_request, hfirst, hfail, hs2]
        simp [finishRecord]

/-- A concrete environment whose model always returns unparsable text. -/
def envGarbage : AgentEnv :=
  ⟨fun i => .ok ⟨"thinking", if i = 0 then "garbage one" else "garbage two"⟩,
    fun _ => .error "no action call", envDecline, 1080, 2400, "IMG", "App: home"⟩

def cfg20 : AgentConfig := ⟨20, "sys prompt"⟩

def st0 : AgentState := ⟨[], 0, 0, [], 0⟩

/-- Witness for `parse_retry_bounded`: two consecutive unparsable outputs on
a concrete first step make exactly two requests and resolve to a Finish
action carrying the raw retry text. -/
theorem parse_retry_bounded_witness :
    (execute_step cfg20 envGarbage (some "task") true st0).2.reqIdx = 0 + 2 ∧
      (execute_step cfg20 envGarbage (some "task") true st0).1.action
        = some (finishRecord (.str "garbage two")) ∧
      (execute_step cfg20 envGarbage (some "task") true st0).1.finished = true := by
  have h := parse_retry_bounded cfg20 envGarbage (some "task") true st0
    ⟨"thinking", "garbage one"⟩ "no action call" rfl rfl
  have h3 := h.2.2.1 ⟨"thinking", "garbage two"⟩ "no action call" rfl rfl
  exact ⟨h.1, h3.1, h3.2⟩

/-! ### Task requirement of the single-step entry point (C10) -/

/-- C10: calling `step()` on an empty context without a (truthy) task
returns the `ValueError` with the agent state untouched — in particular no
observation has been captured and no model request has been made; with a
non-empty context a missing task does not raise, the step runs and returns a
structured result. -/
theorem step_task_required (cfg : AgentConfig) (env : AgentEnv) (st : AgentState) :
    (st.context = [] → ∀ task, (task = none ∨ task = some "") →
      PhoneAgent.step cfg env task st = (.error "Task is required for the first step", st) ∧
      ((PhoneAgent.step cfg env task st).2.obsCount = st.obsCount ∧
        (PhoneAgent.step cfg env task st).2.reqIdx = st.reqIdx)) ∧
    (st.context ≠ [] → ∀ task, ∃ res st',
      PhoneAgent.step cfg env task st = (.ok res, st')) := by
  constructor
  · intro hctx task htask
    have hempty : st.context.isEmpty := by rw [hctx]; rfl
    have hcond : (st.context.isEmpty ∧ (task = none ∨ task = some "")) := ⟨hempty, htask⟩
    unfold PhoneAgent.step
    rw [if_pos hcond]
    exact ⟨rfl, rfl, rfl⟩
  · intro hctx task
    have hempty : st.context.isEmpty = false := by
      cases hc : st.context with
      | nil => exact absurd hc hctx
      | cons m l => rfl
    unfold PhoneAgent.step
    rw [if_neg (by rw [hempty]; simp)]
    exact ⟨_, _, rfl⟩

/-- Witness for `step_task_required`: the empty-context/no-task call errors
with untouched counters, and a non-empty context with no task succeeds. -/
theorem step_task_required_witness :
    PhoneAgent.step cfg20 envGarbage none st0
        = (.error "Task is required for the first step", st0) ∧
      ∃ res st', PhoneAgent.step cfg20 envGarbage none ⟨[mS], 0, 0, [], 0⟩ = (.ok res, st') := by
  have h1 := (step_task_required cfg20 envGarbage st0).1 rfl none (Or.inl rfl)
  have h2 := (step_task_required cfg20 envGarbage ⟨[mS], 0, 0, [], 0⟩).2 (by simp) none
  exact ⟨h1.1, h2⟩

end AutoGLM
